import Mathlib

set_option autoImplicit false

namespace HealthTracker

/-!  Shallow embedding of the Health-Tracker local-first data store
(`js/storage.js`) and its cloud sync engine (`js/cloud-storage.js`).

JavaScript runtime values are modelled by `JVal`.  Arrays and objects are
encoded by cons-style constructors (`anil`/`acons`, `onil`/`ocons`) so that
structural decidable equality can be derived; `jarr`/`jobj` build them from
Lean lists and `asArr?`/`asObj?` decode them.  A missing object property
(JS `undefined`) is `Option.none` at lookup sites.  Numbers are idealised
as rationals (no NaN value: coercion sites that can produce NaN return
`Option ℚ` with `none` for NaN, exactly where the source tests
`Number.isFinite`).  -/

inductive JVal where
  | null
  | bool (b : Bool)
  | num (q : ℚ)
  | str (s : String)
  | anil
  | acons (hd tl : JVal)
  | onil
  | ocons (key : String) (val tl : JVal)
  deriving DecidableEq, Repr

namespace JVal

/-- Encode a Lean list as a JS array value. -/
def jarr : List JVal → JVal
  | [] => .anil
  | v :: vs => .acons v (jarr vs)

/-- Encode a Lean association list as a JS object value. -/
def jobj : List (String × JVal) → JVal
  | [] => .onil
  | (k, v) :: fs => .ocons k v (jobj fs)

/-- Decode a JS array value (`Array.isArray` succeeds exactly when this is `some`). -/
def asArr? : JVal → Option (List JVal)
  | .anil => some []
  | .acons v t => (asArr? t).map (v :: ·)
  | _ => none

/-- Decode a JS object value (non-array object). -/
def asObj? : JVal → Option (List (String × JVal))
  | .onil => some []
  | .ocons k v t => (asObj? t).map ((k, v) :: ·)
  | _ => none

@[simp] theorem asArr?_jarr (xs : List JVal) : asArr? (jarr xs) = some xs := by
  induction xs with
  | nil => rfl
  | cons x xs ih => simp [jarr, asArr?, ih]

@[simp] theorem asObj?_jobj (fs : List (String × JVal)) : asObj? (jobj fs) = some fs := by
  induction fs with
  | nil => rfl
  | cons f fs ih => simp [jobj, asObj?, ih]

/-- JS truthiness.  `0`, `""`, `null`, `false` are falsy; every array and
object (including the empty ones) is truthy. -/
def truthy : JVal → Bool
  | .null => false
  | .bool b => b
  | .num q => !(q == 0)
  | .str s => !(s == "")
  | _ => true

/-- `typeof v === "object"` — true for `null`, arrays and objects. -/
def typeofObject : JVal → Bool
  | .null | .anil | .acons _ _ | .onil | .ocons _ _ _ => true
  | _ => false

end JVal

open JVal

/-- An in-memory JS object as an ordered association list (insertion order,
unique keys whenever produced by this model). -/
abbrev Rec := List (String × JVal)

/-- Property read (`r[k]`, first binding wins — JS objects have unique
keys); `none` models JS `undefined`. -/
def rget : Rec → String → Option JVal
  | [], _ => none
  | (k', v) :: t, k => if k' = k then some v else rget t k

/-- Property write (`r[k] = v`): replaces the first binding in place, else
appends — matching JS property-assignment / spread insertion order. -/
def rset : Rec → String → JVal → Rec
  | [], k, v => [(k, v)]
  | (k', v') :: t, k, v =>
      if k' = k then (k', v) :: t else (k', v') :: rset t k v

/-- Object spread `{...a, ...b}`. -/
def rmerge (a b : Rec) : Rec :=
  b.foldl (fun acc p => rset acc p.1 p.2) a

/-- Property lookup on an arbitrary JS value (`x.k`): only non-array objects
carry string-keyed data in this model. -/
def vget (x : JVal) (k : String) : Option JVal :=
  match asObj? x with
  | some r => rget r k
  | none => none

/-- Lookup through an optional value (`x?.k` on a possibly missing value). -/
def vgetO (x : Option JVal) (k : String) : Option JVal :=
  match x with
  | some v => vget v k
  | none => none

def truthyO : Option JVal → Bool
  | none => false
  | some v => truthy v

/-- Encode a list of Lean strings as JS string values. -/
def jstrs (l : List String) : List JVal := l.map (fun s => JVal.str s)

/-! ### String helpers (JS semantics, ASCII idealisation) -/

/-- JS whitespace (ASCII portion). -/
def wsChar (c : Char) : Bool :=
  c == ' ' || c == '\t' || c == '\n' || c == '\r' || c == '\x0b' || c == '\x0c'

def trimChars (l : List Char) : List Char :=
  ((l.dropWhile wsChar).reverse.dropWhile wsChar).reverse

/-- `s.trim()`. -/
def jsTrim (s : String) : String := ⟨trimChars s.data⟩

/-- `s.toLowerCase()` (ASCII). -/
def jsLower (s : String) : String := ⟨s.data.map Char.toLower⟩

/-- Character-list comparison; JS relational operators on strings compare
code units left to right. -/
def cmpChars : List Char → List Char → Ordering
  | [], [] => .eq
  | [], _ :: _ => .lt
  | _ :: _, [] => .gt
  | a :: as, b :: bs => (compare a.toNat b.toNat).then (cmpChars as bs)

/-- JS `a >= b` on strings. -/
def strGe (a b : String) : Bool := cmpChars a.data b.data ≠ Ordering.lt

/-- JS `a <= b` on strings. -/
def strLe (a b : String) : Bool := cmpChars a.data b.data ≠ Ordering.gt

/-! ### Numeric coercions -/

def isDigitCh (c : Char) : Bool := decide (48 ≤ c.toNat) && decide (c.toNat ≤ 57)

def digitVal (c : Char) : Nat := c.toNat - 48

/-- Leading decimal digits of a char list, with the rest. -/
def takeDigits : List Char → (List Char × List Char)
  | [] => ([], [])
  | c :: rest =>
      if isDigitCh c then
        let (ds, rs) := takeDigits rest
        (c :: ds, rs)
      else ([], c :: rest)

def digitsToNat (ds : List Char) : Nat :=
  ds.foldl (fun acc c => acc * 10 + digitVal c) 0

/-- `Number.parseInt(s, 10)`: skip leading whitespace, optional sign, then
leading decimal digits; NaN (`none`) when no digit follows. -/
def parseIntStr (s : String) : Option Int :=
  let l := s.data.dropWhile wsChar
  let (neg, l) :=
    match l with
    | '-' :: rest => (true, rest)
    | '+' :: rest => (false, rest)
    | _ => (false, l)
  let (ds, _) := takeDigits l
  if ds = [] then none
  else some (if neg then -((digitsToNat ds : Nat) : Int) else ((digitsToNat ds : Nat) : Int))

/-- `Number(s)` for a string: trimmed empty string is 0; a plain decimal
literal (optional sign, digits, optional fraction) is its value; anything
else is NaN.  (Hex, exponent and `Infinity` literals are not modelled.) -/
def strToNum? (s : String) : Option ℚ :=
  let l := trimChars s.data
  if l = [] then some 0
  else
    let (neg, l) :=
      match l with
      | '-' :: rest => (true, rest)
      | '+' :: rest => (false, rest)
      | _ => (false, l)
    let (ip, rest) := takeDigits l
    match rest with
    | [] =>
        if ip = [] then none
        else some ((if neg then -1 else 1) * (digitsToNat ip : ℚ))
    | '.' :: frac =>
        let (fp, rest2) := takeDigits frac
        if rest2 = [] ∧ (ip ≠ [] ∨ fp ≠ []) then
          some ((if neg then -1 else 1) *
            ((digitsToNat ip : ℚ) + (digitsToNat fp : ℚ) / (10 ^ fp.length : ℚ)))
        else none
    | _ => none

/-- Decimal rendering of an integer. -/
def intToString (n : Int) : String :=
  if n < 0 then "-" ++ Nat.repr n.natAbs else Nat.repr n.natAbs

/-- Rendering of a JS number.  Integers render exactly as JS does; the
non-integer case is an idealised placeholder (claims never depend on it). -/
def ratToString (q : ℚ) : String :=
  if q.den = 1 then intToString q.num
  else intToString q.num ++ "/" ++ Nat.repr q.den

/-- `String(v)` (ToString coercion).  Array join maps elements through
their own rendering (JS renders null array elements as empty — not
modelled; no claim touches it). -/
def jsToString : JVal → String
  | .null => "null"
  | .bool b => cond b "true" "false"
  | .num q => ratToString q
  | .str s => s
  | .anil => ""
  | .acons v .anil => jsToString v
  | .acons v t => jsToString v ++ "," ++ jsToString t
  | .onil => "[object Object]"
  | .ocons _ _ _ => "[object Object]"

/-- `Number(v)` (ToNumber coercion), `none` = NaN.  Note the JS quirk
`Number(null) === 0`.  Object/array-to-primitive coercion is idealised:
the empty array is 0, other arrays and objects are NaN. -/
def jsNumberV : JVal → Option ℚ
  | .null => some 0
  | .bool b => some (cond b 1 0)
  | .num q => some q
  | .str s => strToNum? s
  | .anil => some 0
  | _ => none

def jsNumber? (v : Option JVal) : Option ℚ :=
  match v with
  | none => none
  | some x => jsNumberV x

/-- Truncation toward zero (what `parseInt(String(q))` yields for a finite
decimal-printed number). -/
def ratTruncZero (q : ℚ) : Int :=
  if 0 ≤ q.num then (q.num.toNat / q.den : Nat)
  else -(((-q.num).toNat / q.den : Nat) : Int)

/-- `Number.parseInt(v, 10)` on a JS value.  Numbers are truncated directly
(decimal notation assumed; JS exponent-notation inputs beyond 1e21 are not
modelled); other values go through ToString. -/
def jsParseInt? (v : Option JVal) : Option Int :=
  match v with
  | some (.num q) => some (ratTruncZero q)
  | some x => parseIntStr (jsToString x)
  | none => parseIntStr "undefined"

/-- `Math.round` (round half toward positive infinity). -/
def jsRound (q : ℚ) : Int := ⌊q + 1 / 2⌋

/-! ### Storage constants and defaults (`Storage.SCHEMA_VERSION`, `Storage.DEFAULTS`) -/

def SCHEMA_VERSION : Int := 2

def WORKOUT_TYPES : List String := ["push", "pull", "legs", "upper", "cardio", "superset"]
def PROFILE_GOALS : List String := ["fat_loss", "muscle_gain", "performance", "maintenance"]
def PROFILE_LEVELS : List String := ["beginner", "intermediate", "advanced"]
def PROFILE_UNITS : List String := ["imperial", "metric"]

def defaultGoals : Rec :=
  [("weightGoal", .num 210), ("dailyCalories", .num 1500), ("dailyProtein", .num 150),
   ("weeklyWorkouts", .num 4), ("dailySteps", .num 10000), ("sleepHours", .num 7)]

def defaultProfile : Rec :=
  [("displayName", .str ""), ("primaryGoal", .str "fat_loss"),
   ("experienceLevel", .str "intermediate"), ("units", .str "imperial")]

def defaultSplit : List String := ["push", "pull", "legs"]

def defaultWindow : Rec := [("start", .str "12:00"), ("end", .str "20:00")]

def defaultSettings : Rec :=
  [("darkMode", .bool true), ("theme", .str "dark"),
   ("workoutSplit", jarr (jstrs defaultSplit)),
   ("defaultFastingWindow", jobj defaultWindow),
   ("customExercises", .anil),
   ("onboardingCompleted", .bool false),
   ("onboardingCompletedAt", .null),
   ("onboardingDeferredUntil", .null)]

/-- Ambient inputs of the store: the current calendar day as `getToday()`
returns it, the current instant as `toISOString()` returns it, and a supply
of fresh identifiers for `generateId()` (indexed deterministically; the JS
source draws them from `Math.random`, whose values are opaque). -/
structure Ctx where
  today : String
  nowIso : String
  genId : Nat → String

/-! ### Calendar model

`onboarding.defer(days)` builds `new Date()` shifted by `setDate(getDate()
+ days)` and stores `toISOString().split('T')[0]`; JS date arithmetic over
calendar days is modelled by `nextDay` iteration over civil dates, and the
`YYYY-MM-DD` rendering by `fmtDate`. -/

structure CivDate where
  y : Nat
  m : Nat
  d : Nat
  deriving DecidableEq, Repr

def isLeap (y : Nat) : Bool := (y % 4 == 0 && y % 100 != 0) || y % 400 == 0

def daysInMonth (y m : Nat) : Nat :=
  if m = 2 then (if isLeap y then 29 else 28)
  else if m = 4 ∨ m = 6 ∨ m = 9 ∨ m = 11 then 30
  else 31

def validDate (c : CivDate) : Prop :=
  1 ≤ c.m ∧ c.m ≤ 12 ∧ 1 ≤ c.d ∧ c.d ≤ daysInMonth c.y c.m

instance (c : CivDate) : Decidable (validDate c) := by
  unfold validDate; infer_instance

def nextDay (c : CivDate) : CivDate :=
  if c.d < daysInMonth c.y c.m then ⟨c.y, c.m, c.d + 1⟩
  else if c.m < 12 then ⟨c.y, c.m + 1, 1⟩
  else ⟨c.y + 1, 1, 1⟩

def addDays (n : Nat) (c : CivDate) : CivDate := nextDay^[n] c

/-- Numeric key realising the chronological (lexicographic) order on civil
dates with two-digit month/day fields. -/
def dateKey (c : CivDate) : Nat := (c.y * 100 + c.m) * 100 + c.d

/-- Chronological order on civil dates. -/
def dateLe (a b : CivDate) : Prop := dateKey a ≤ dateKey b

def pad2 (n : Nat) : List Char := [Char.ofNat (48 + n / 10 % 10), Char.ofNat (48 + n % 10)]

def pad4 (n : Nat) : List Char := pad2 (n / 100) ++ pad2 (n % 100)

def fmtDateChars (c : CivDate) : List Char :=
  pad4 c.y ++ '-' :: (pad2 c.m ++ '-' :: pad2 c.d)

/-- `toISOString().split('T')[0]` of a date with civil fields `c`. -/
def fmtDate (c : CivDate) : String := ⟨fmtDateChars c⟩

/-! ### Schema Normalizer (`Storage.normalize*`) -/

/-- `Storage.normalizeThemeValue`. -/
def normalizeThemeValue (theme darkMode : Option JVal) : String :=
  match theme with
  | some (.str "light") => "light"
  | some (.str "dark") => "dark"
  | _ => if darkMode = some (.bool false) then "light" else "dark"

/-- Character-level test for `/^\d{4}-\d{2}-\d{2}$/`. -/
def isFullDateChars : List Char → Bool
  | [a, b, c, d, e, f, g, h, i, j] =>
      isDigitCh a && isDigitCh b && isDigitCh c && isDigitCh d && e == '-' &&
      isDigitCh f && isDigitCh g && h == '-' && isDigitCh i && isDigitCh j
  | _ => false

def isFullDate (s : String) : Bool := isFullDateChars s.data

/-- Test for `/^\d{4}-\d{2}-\d{2}T/`. -/
def isDateTimeStart (s : String) : Bool :=
  isFullDateChars (s.data.take 10) && ((s.data.drop 10).head? == some 'T')

/-- `Storage.normalizeDateValue` (fallback argument as passed: every call
site passes the default `null`, so an unusable value falls back to today). -/
def normalizeDateValue (ctx : Ctx) (v : Option JVal) (fallback : Option String) : String :=
  match v with
  | some (.str s) =>
      let t := jsTrim s
      if isFullDate t then t
      else if isDateTimeStart t then ⟨t.data.take 10⟩
      else match fallback with
           | some f => if f ≠ "" then f else ctx.today
           | none => ctx.today
  | _ =>
      match fallback with
      | some f => if f ≠ "" then f else ctx.today
      | none => ctx.today

/-- Test for `/^([01]\d|2[0-3]):([0-5]\d)$/`. -/
def isTimeChars : List Char → Bool
  | [h1, h2, c, m1, m2] =>
      ((h1 == '0' || h1 == '1') && isDigitCh h2 ||
        h1 == '2' && decide (48 ≤ h2.toNat) && decide (h2.toNat ≤ 51)) &&
      c == ':' && decide (48 ≤ m1.toNat) && decide (m1.toNat ≤ 53) && isDigitCh m2
  | _ => false

def isTimeStr (s : String) : Bool := isTimeChars s.data

/-- `Storage.normalizeTimeValue`. -/
def normalizeTimeValue (v : Option JVal) (fb : String) : String :=
  match v with
  | some (.str s) =>
      let t := jsTrim s
      if isTimeStr t then t else fb
  | _ => fb

/-- `Storage.toNumber` (`Number.isFinite(num) ? num : null`). -/
def toNumber (v : Option JVal) : JVal :=
  match jsNumber? v with
  | some q => .num q
  | none => .null

/-- `Storage.toPositiveInt`. -/
def toPositiveInt (v : Option JVal) (fb : ℚ) : ℚ :=
  match jsParseInt? v with
  | some n => if n ≤ 0 then fb else (n : ℚ)
  | none => fb

/-- `Storage.normalizeWorkoutType`. -/
def normalizeWorkoutType (v : Option JVal) : String :=
  match v with
  | some (.str t) => if WORKOUT_TYPES.contains t then t else "push"
  | _ => "push"

/-- Keep the first occurrence of each element (JS `[...new Set(xs)]`).
The list length bounds the recursion depth; threading it as structural
fuel keeps the function kernel-reducible. -/
def dedupFuel : Nat → List String → List String
  | _, [] => []
  | 0, _ :: _ => []
  | n + 1, x :: xs => x :: dedupFuel n (xs.filter (· != x))

def dedupFirst (l : List String) : List String := dedupFuel l.length l

/-- `String(x || '')` — the coercion applied to each split/exercise entry. -/
def strOfTruthy (v : JVal) : String :=
  jsToString (if truthy v then v else .str "")

/-- `Storage.normalizeWorkoutSplit`. -/
def normalizeWorkoutSplit (v : Option JVal) : List String :=
  let raw : List JVal :=
    match v with
    | some x =>
        match asArr? x with
        | some xs => xs
        | none =>
            match x with
            | .str s => jstrs (s.splitOn ",")
            | _ => jstrs defaultSplit
    | none => jstrs defaultSplit
  let normalized := (raw.map (fun t => jsLower (jsTrim (strOfTruthy t)))).filter
    (fun t => WORKOUT_TYPES.contains t)
  let deduped := dedupFirst normalized
  if deduped.length > 0 then deduped else defaultSplit

/-- `Storage.normalizeFastingWindow`. -/
def normalizeFastingWindow (v : Option JVal) : Rec :=
  let source : Rec :=
    match v with
    | some x =>
        if truthy x && typeofObject x then (asObj? x).getD []
        else defaultWindow
    | none => defaultWindow
  [("start", .str (normalizeTimeValue (rget source "start") "12:00")),
   ("end", .str (normalizeTimeValue (rget source "end") "20:00"))]

/-- `Storage.normalizeCustomExercises`. -/
def normalizeCustomExercises (v : Option JVal) : List String :=
  match v with
  | some x =>
      match asArr? x with
      | some xs =>
          let cleaned := (xs.map (fun i => jsTrim (strOfTruthy i))).filter
            (fun s => decide (0 < s.length) && decide (s.length ≤ 80))
          dedupFirst cleaned
      | none => []
  | none => []

/-- The source object of a value that must be a non-array object
(`x && typeof x === 'object' && !Array.isArray(x) ? x : {}`). -/
def objSource (v : Option JVal) : Rec :=
  match v with
  | some x =>
      if truthy x && typeofObject x then
        match asObj? x with
        | some r => r
        | none => []
      else []
  | none => []

/-- `Storage.normalizeProfile`. -/
def normalizeProfile (v : Option JVal) : Rec :=
  let source := objSource v
  let displayName := jsTrim (jsToString
    (match rget source "displayName" with
     | some x => if truthy x then x else .str ""
     | none => .str ""))
  let primaryGoal :=
    match rget source "primaryGoal" with
    | some (.str g) => if PROFILE_GOALS.contains g then g else "fat_loss"
    | _ => "fat_loss"
  let experienceLevel :=
    match rget source "experienceLevel" with
    | some (.str g) => if PROFILE_LEVELS.contains g then g else "intermediate"
    | _ => "intermediate"
  let units :=
    match rget source "units" with
    | some (.str g) => if PROFILE_UNITS.contains g then g else "imperial"
    | _ => "imperial"
  rset (rset (rset (rset (rmerge defaultProfile source)
    "displayName" (.str ⟨displayName.data.take 60⟩))
    "primaryGoal" (.str primaryGoal))
    "experienceLevel" (.str experienceLevel))
    "units" (.str units)

/-- `Storage.normalizeGoals`. -/
def normalizeGoals (v : Option JVal) : Rec :=
  let source := objSource v
  [("weightGoal", .num ((jsNumber? (rget source "weightGoal")).getD 210)),
   ("dailyCalories", .num (toPositiveInt (rget source "dailyCalories") 1500)),
   ("dailyProtein", .num (toPositiveInt (rget source "dailyProtein") 150)),
   ("weeklyWorkouts", .num (min 7 (max 1 (toPositiveInt (rget source "weeklyWorkouts") 4)))),
   ("dailySteps", .num (toPositiveInt (rget source "dailySteps") 10000)),
   ("sleepHours", .num ((jsNumber? (rget source "sleepHours")).getD 7))]

/-- `Storage.normalizeSettings` (second argument is
`!!options.hasHistoricalData`). -/
def normalizeSettings (ctx : Ctx) (v : Option JVal) (hasHistoricalData : Bool) : Rec :=
  let source := objSource v
  let theme := normalizeThemeValue (rget source "theme") (rget source "darkMode")
  let profile := normalizeProfile (rget source "profile")
  let split := normalizeWorkoutSplit (rget source "workoutSplit")
  let foodWindow := normalizeFastingWindow (rget source "defaultFastingWindow")
  let customExercises := normalizeCustomExercises (rget source "customExercises")
  let explicitOnboarding : Option Bool :=
    match rget source "onboardingCompleted" with
    | some (.bool b) => some b
    | _ => none
  let onboardingCompleted := explicitOnboarding.getD hasHistoricalData
  let completedAt : JVal :=
    if onboardingCompleted then
      match rget source "onboardingCompletedAt" with
      | some (.str s) => if s ≠ "" then .str s else .str ctx.nowIso
      | _ => .str ctx.nowIso
    else .null
  let deferred : JVal :=
    if onboardingCompleted then .null
    else
      match rget source "onboardingDeferredUntil" with
      | some (.str s) =>
          let nd := normalizeDateValue ctx (some (.str s)) none
          if nd ≠ "" ∧ strGe nd ctx.today then .str nd else .null
      | _ => .null
  rset (rset (rset (rset (rset (rset (rset (rset (rset (rset
    (rmerge defaultSettings source)
    "schemaVersion" (.num 2))
    "theme" (.str theme))
    "darkMode" (.bool (theme == "dark")))
    "workoutSplit" (jarr (jstrs split)))
    "defaultFastingWindow" (jobj foodWindow))
    "customExercises" (jarr (jstrs customExercises)))
    "profile" (jobj profile))
    "onboardingCompleted" (.bool onboardingCompleted))
    "onboardingCompletedAt" completedAt)
    "onboardingDeferredUntil" deferred

/-- One workout record of `Storage.normalizeWorkoutCollection` (`idx` indexes
the fresh-id supply for this record). -/
def normalizeWorkout (ctx : Ctx) (idx : Nat) (w : JVal) : Rec :=
  let wrec := (asObj? w).getD []
  let exercises : List Rec :=
    match vget w "exercises" with
    | some e =>
        match asArr? e with
        | some exs =>
            ((exs.filter (fun x => truthy x && typeofObject x)).map (fun ex =>
              let erec := (asObj? ex).getD []
              let sets : List Rec :=
                match vget ex "sets" with
                | some sv =>
                    match asArr? sv with
                    | some ss =>
                        ((ss.filter (fun x => truthy x && typeofObject x)).map (fun st =>
                          [("reps", toNumber (vget st "reps")),
                           ("weight", toNumber (vget st "weight"))])).filter
                          (fun st => (rget st "reps" != some JVal.null) ||
                                     (rget st "weight" != some JVal.null))
                    | none => []
                | none => []
              rset (rset erec
                "name" (.str (jsTrim (jsToString
                  (match rget erec "name" with
                   | some x => if truthy x then x else .str ""
                   | none => .str "")))))
                "sets" (jarr (sets.map jobj)))).filter
              (fun ex => truthyO (rget ex "name"))
        | none => []
    | none => []
  let cardio : JVal :=
    match vget w "cardio" with
    | some c =>
        if truthy c && typeofObject c then
          let crec := (asObj? c).getD []
          jobj (rset (rset (rset crec
            "type" (.str (match rget crec "type" with
                          | some (.str s) => s
                          | _ => "")))
            "distance" (toNumber (rget crec "distance")))
            "duration" (.str (match rget crec "duration" with
                              | some (.str s) => s
                              | _ => "")))
        else .null
    | none => .null
  rset (rset (rset (rset (rset (rset (rset (rset (rset (rset wrec
    "id" (match rget wrec "id" with
          | some (.str s) => if s ≠ "" then .str s else .str (ctx.genId idx)
          | _ => .str (ctx.genId idx)))
    "createdAt" (match rget wrec "createdAt" with
                 | some (.str s) => if s ≠ "" then .str s else .str ctx.nowIso
                 | _ => .str ctx.nowIso))
    "date" (.str (normalizeDateValue ctx (rget wrec "date") none)))
    "type" (.str (normalizeWorkoutType (rget wrec "type"))))
    "dayNumber" (match jsNumber? (rget wrec "dayNumber") with
                 | some q => .num ((max 1 (jsRound q) : Int) : ℚ)
                 | none => .null))
    "preWeight" (toNumber (rget wrec "preWeight")))
    "energyLevel" (toNumber (rget wrec "energyLevel")))
    "notes" (match rget wrec "notes" with
             | some x => if truthy x then .str (jsToString x) else .null
             | none => .null))
    "exercises" (jarr (exercises.map jobj)))
    "cardio" cardio

/-- `Storage.normalizeWorkoutCollection`. -/
def normalizeWorkoutCollection (ctx : Ctx) (v : JVal) : List Rec :=
  match asArr? v with
  | none => []
  | some ws =>
      ((ws.filter (fun x => truthy x && typeofObject x)).enum.map
        (fun p => normalizeWorkout ctx p.1 p.2))

/-- One nutrition record of `Storage.normalizeNutritionCollection`. -/
def normalizeNutritionEntry (ctx : Ctx) (idx : Nat) (e : JVal) : Rec :=
  let erec := (asObj? e).getD []
  rset (rset (rset (rset (rset (rset (rset (rset (rset (rset (rset erec
    "id" (match rget erec "id" with
          | some (.str s) => if s ≠ "" then .str s else .str (ctx.genId idx)
          | _ => .str (ctx.genId idx)))
    "createdAt" (match rget erec "createdAt" with
                 | some (.str s) => if s ≠ "" then .str s else .str ctx.nowIso
                 | _ => .str ctx.nowIso))
    "date" (.str (normalizeDateValue ctx (rget erec "date") none)))
    "foodWindow" (jobj (normalizeFastingWindow (rget erec "foodWindow"))))
    "steps" (toNumber (rget erec "steps")))
    "totalCalories" (.num ((jsNumber? (rget erec "totalCalories")).getD 0)))
    "totalProtein" (.num ((jsNumber? (rget erec "totalProtein")).getD 0)))
    "meals" (match rget erec "meals" with
             | some m => match asArr? m with
                         | some _ => m
                         | none => .anil
             | none => .anil))
    "supplements" (match rget erec "supplements" with
                   | some m => match asArr? m with
                               | some _ => m
                               | none => .anil
                   | none => .anil))
    "alcohol" (match rget erec "alcohol" with
               | some a =>
                   if truthy a && typeofObject a then
                     jobj [("drinks", .num ((jsNumber? (vget a "drinks")).getD 0)),
                           ("type", match vget a "type" with
                                    | some t => if truthy t then t else .null
                                    | none => .null)]
                   else jobj [("drinks", .num 0), ("type", .null)]
               | none => jobj [("drinks", .num 0), ("type", .null)]))
    "notes" (match rget erec "notes" with
             | some x => if truthy x then .str (jsToString x) else .null
             | none => .null)

/-- `Storage.normalizeNutritionCollection`. -/
def normalizeNutritionCollection (ctx : Ctx) (v : JVal) : List Rec :=
  match asArr? v with
  | none => []
  | some es =>
      ((es.filter (fun x => truthy x && typeofObject x)).enum.map
        (fun p => normalizeNutritionEntry ctx p.1 p.2))

/-- One metrics record of `Storage.normalizeMetricsCollection`. -/
def normalizeMetricsEntry (ctx : Ctx) (idx : Nat) (e : JVal) : Rec :=
  let erec := (asObj? e).getD []
  rset (rset (rset (rset (rset (rset (rset (rset (rset (rset (rset erec
    "id" (match rget erec "id" with
          | some (.str s) => if s ≠ "" then .str s else .str (ctx.genId idx)
          | _ => .str (ctx.genId idx)))
    "createdAt" (match rget erec "createdAt" with
                 | some (.str s) => if s ≠ "" then .str s else .str ctx.nowIso
                 | _ => .str ctx.nowIso))
    "date" (.str (normalizeDateValue ctx (rget erec "date") none)))
    "weight" (toNumber (rget erec "weight")))
    "sleepHours" (toNumber (rget erec "sleepHours")))
    "sleepQuality" (toNumber (rget erec "sleepQuality")))
    "steps" (toNumber (rget erec "steps")))
    "energyLevel" (toNumber (rget erec "energyLevel")))
    "mood" (toNumber (rget erec "mood")))
    "workoutCompleted" (.bool (truthyO (rget erec "workoutCompleted"))))
    "nutritionCompleted" (.bool (truthyO (rget erec "nutritionCompleted")))

/-- `Storage.normalizeMetricsCollection`. -/
def normalizeMetricsCollection (ctx : Ctx) (v : JVal) : List Rec :=
  match asArr? v with
  | none => []
  | some es =>
      ((es.filter (fun x => truthy x && typeofObject x)).enum.map
        (fun p => normalizeMetricsEntry ctx p.1 p.2))

/-! ### Local Store state and Migration Gate

The persisted local keys, each holding the parsed value of the stored JSON
text (`none` = key absent; `readRaw` parse failures also surface as the
fallback, which `none` covers).  The schema-version key stores a raw
(non-JSON) string. -/

structure Store where
  workouts : Option JVal
  nutrition : Option JVal
  metrics : Option JVal
  goals : Option JVal
  settings : Option JVal
  schemaVer : Option String
  deriving DecidableEq, Repr

def emptyStore : Store := ⟨none, none, none, none, none, none⟩

/-- `Storage.get`: `readRaw(key, [])` then keep only arrays. -/
def getArr (v : Option JVal) : List JVal :=
  match v with
  | some x => (asArr? x).getD []
  | none => []

/-- `Storage.detectSchemaVersion`. -/
def detectSchemaVersion (s : Store) : Int :=
  match parseIntStr (s.schemaVer.getD "") with
  | some n =>
      if 0 < n then n
      else detectFromSettings s
  | none => detectFromSettings s
where
  detectFromSettings (s : Store) : Int :=
    let sv := vgetO (some (s.settings.getD (jobj []))) "schemaVersion"
    let sv := match sv with
              | some x => if truthy x then some x else none
              | none => none
    match (match sv with
           | some x => jsParseInt? (some x)
           | none => parseIntStr "") with
    | some n => if 0 < n then n else 1
    | none => 1

/-- `Storage.normalizeAllData` (the write-back of all five keys plus the
schema version). -/
def normalizeAllData (ctx : Ctx) (s : Store) : Store :=
  let w := normalizeWorkoutCollection ctx (s.workouts.getD .anil)
  let n := normalizeNutritionCollection ctx (s.nutrition.getD .anil)
  let m := normalizeMetricsCollection ctx (s.metrics.getD .anil)
  let g := normalizeGoals (some (s.goals.getD (jobj [])))
  let hasHistoricalData := 0 < w.length + n.length + m.length
  let st := normalizeSettings ctx (some (s.settings.getD (jobj []))) hasHistoricalData
  { workouts := some (jarr (w.map jobj)),
    nutrition := some (jarr (n.map jobj)),
    metrics := some (jarr (m.map jobj)),
    goals := some (jobj g),
    settings := some (jobj st),
    schemaVer := some (intToString SCHEMA_VERSION) }

/-- `Storage.migrate`: version detection, non-fatal warning on forward
skew, unconditional re-normalization.  The returned list carries the
`console.warn` diagnostics (the try/catch around the body cannot fire in
the model: every step is total). -/
def migrate (ctx : Ctx) (s : Store) : Store × List String :=
  let version := detectSchemaVersion s
  let warnings :=
    if version > SCHEMA_VERSION then
      ["Stored schema version " ++ intToString version ++
        " is newer than app schema " ++ intToString SCHEMA_VERSION ++ "."]
    else []
  (normalizeAllData ctx s, warnings)

/-! ### Collection operations (`Storage.add` / `Storage.update`) -/

/-- `Storage.add` on the parsed items of one collection: assign `id` and
`createdAt` through JS `||` (kept only when truthy), push, return the
stored record. -/
def addItem (items : List JVal) (item : Rec) (genned : String) (now : String) :
    List JVal × Rec :=
  let item := rset item "id"
    (match rget item "id" with
     | some v => if truthy v then v else .str genned
     | none => .str genned)
  let item := rset item "createdAt"
    (match rget item "createdAt" with
     | some v => if truthy v then v else .str now
     | none => .str now)
  (items ++ [jobj item], item)

/-- `Storage.update` on the parsed items of one collection: find the first
record with strict `item.id === id`, shallow-merge the updates into it and
stamp `updatedAt`; when the id is unknown, `none` and the untouched list. -/
def updateItem (items : List JVal) (id : String) (updates : Rec) (now : String) :
    Option Rec × List JVal :=
  match items with
  | [] => (none, [])
  | it :: rest =>
      if vget it "id" == some (.str id) then
        let old := (asObj? it).getD []
        let merged := rset (rmerge old updates) "updatedAt" (.str now)
        (some merged, jobj merged :: rest)
      else
        let (res, rest') := updateItem rest id updates now
        (res, it :: rest')

/-! ### Settings / goals accessors and onboarding -/

/-- `Storage.settings.get`. -/
def settingsGet (ctx : Ctx) (s : Store) : Rec :=
  normalizeSettings ctx (some (s.settings.getD (jobj []))) false

/-- The merged object `settings.set` builds before normalizing:
`{...current, ...incoming, profile: {...current.profile,
...(incoming.profile || {})}, defaultFastingWindow: {...}}`. -/
def settingsSetMerged (ctx : Ctx) (incoming : Rec) (s : Store) : Rec :=
  let current := settingsGet ctx s
  let incomingProfile : Rec :=
    match rget incoming "profile" with
    | some p => if truthy p then (asObj? p).getD [] else []
    | none => []
  let incomingWindow : Rec :=
    match rget incoming "defaultFastingWindow" with
    | some p => if truthy p then (asObj? p).getD [] else []
    | none => []
  let currentProfile : Rec :=
    match rget current "profile" with
    | some p => (asObj? p).getD []
    | none => []
  let currentWindow : Rec :=
    match rget current "defaultFastingWindow" with
    | some p => (asObj? p).getD []
    | none => []
  rset (rset (rmerge current incoming)
    "profile" (jobj (rmerge currentProfile incomingProfile)))
    "defaultFastingWindow" (jobj (rmerge currentWindow incomingWindow))

/-- `Storage.settings.set` (the deep merge for `profile` and
`defaultFastingWindow`, normalization, write-back and version persist; the
theme side effect has no data content). -/
def settingsSet (ctx : Ctx) (incoming : Rec) (s : Store) : Store :=
  { s with
    settings := some (jobj (normalizeSettings ctx
      (some (jobj (settingsSetMerged ctx incoming s))) false)),
    schemaVer := some (intToString SCHEMA_VERSION) }

/-- `Storage.goals.get`. -/
def goalsGet (s : Store) : Rec :=
  normalizeGoals (some (s.goals.getD (jobj [])))

/-- `Storage.onboarding.shouldPrompt`. -/
def shouldPrompt (ctx : Ctx) (s : Store) : Bool :=
  let st := settingsGet ctx s
  if truthyO (rget st "onboardingCompleted") then false
  else
    match rget st "onboardingDeferredUntil" with
    | some v =>
        if truthy v then
          match v with
          | .str ds => !(strGe ds ctx.today)
          | _ => true
        else true
    | none => true

/-- `Storage.onboarding.defer(days)`: `deferDate.setDate(getDate() +
Math.max(1, Number(days) || 7))`, then `toISOString().split('T')[0]` is
written through `settings.set`.  `dday` is the civil date of the calling
day (so `fmtDate dday` is what `getToday()` returns), and day arithmetic
is `addDays` of the calendar model defined below. -/
def onboardingDefer (dday : CivDate) (now : String) (g : Nat → String) (days : Nat)
    (s : Store) : Store :=
  let eff := max 1 (if days = 0 then 7 else days)
  settingsSet ⟨fmtDate dday, now, g⟩
    [("onboardingDeferredUntil", .str (fmtDate (addDays eff dday)))] s

/-! ### Export / import (`Storage.exportAll` / `Storage.importAll` /
`Storage.clearAll`) -/

/-- `Storage.exportAll`. -/
def exportAll (ctx : Ctx) (s : Store) : Rec :=
  [("version", .str "2.0"),
   ("schemaVersion", .num 2),
   ("exportedAt", .str ctx.nowIso),
   ("workouts", jarr (getArr s.workouts)),
   ("nutrition", jarr (getArr s.nutrition)),
   ("metrics", jarr (getArr s.metrics)),
   ("goals", jobj (goalsGet s)),
   ("settings", jobj (settingsGet ctx s))]

/-- `Storage.importAll`: write each of the five keys that the data object
carries verbatim, then re-run the Migration Gate.  (The debounced cloud
push it may schedule has no effect on the local store.) -/
def importAll (ctx : Ctx) (data : Rec) (s : Store) : Store :=
  let s := match rget data "workouts" with
           | some v => { s with workouts := some v }
           | none => s
  let s := match rget data "nutrition" with
           | some v => { s with nutrition := some v }
           | none => s
  let s := match rget data "metrics" with
           | some v => { s with metrics := some v }
           | none => s
  let s := match rget data "goals" with
           | some v => { s with goals := some v }
           | none => s
  let s := match rget data "settings" with
           | some v => { s with settings := some v }
           | none => s
  (migrate ctx s).1

/-- `Storage.clearAll`: every persisted key removed. -/
def clearAll (_s : Store) : Store := emptyStore

/-! ### Sync Engine (`CloudStorage`, first definition in the file —
the one with the ownership guard and snapshot recovery) -/

/-- The raw serialized contents of the five data keys plus the owner
marker, as `localStorage` holds them (`none` = key absent). -/
structure LS where
  workouts : Option String
  nutrition : Option String
  metrics : Option String
  goals : Option String
  settings : Option String
  owner : Option String
  deriving DecidableEq, Repr

/-- In-memory pre-pull snapshot: the present data keys with their exact
stored text (`CloudStorage.getLocalSnapshot`). -/
structure Snap where
  workouts : Option String
  nutrition : Option String
  metrics : Option String
  goals : Option String
  settings : Option String
  deriving DecidableEq, Repr

def getLocalSnapshot (s : LS) : Snap :=
  ⟨s.workouts, s.nutrition, s.metrics, s.goals, s.settings⟩

/-- `Object.keys(snapshot).length > 0`. -/
def snapNonempty (sn : Snap) : Bool :=
  sn.workouts.isSome || sn.nutrition.isSome || sn.metrics.isSome ||
  sn.goals.isSome || sn.settings.isSome

/-- `CloudStorage.restoreLocalSnapshot`: remove all five data keys, then
write back exactly the snapshot entries.  The owner marker is untouched. -/
def restoreLocalSnapshot (sn : Snap) (s : LS) : LS :=
  { s with workouts := sn.workouts, nutrition := sn.nutrition,
           metrics := sn.metrics, goals := sn.goals, settings := sn.settings }

/-- `CloudStorage.clearAllLocalData`: the five data keys and the owner
marker are all removed. -/
def clearAllLocalData (_s : LS) : LS :=
  ⟨none, none, none, none, none, none⟩

/-- A remote account document (`userData/<uid>`): the five optional
collection fields (absent fields are simply not in the document). -/
structure Doc where
  workouts : Option JVal
  nutrition : Option JVal
  metrics : Option JVal
  goals : Option JVal
  settings : Option JVal
  deriving Repr

/-- Minimal JSON rendering, used only where the source calls
`JSON.stringify` on remote data before caching it; no claim inspects the
produced text. -/
def stringifyJ : JVal → String
  | .null => "null"
  | .bool b => cond b "true" "false"
  | .num q => ratToString q
  | .str s => "\"" ++ s ++ "\""
  | .anil => "[]"
  | .acons v t => "[" ++ stringifyJ v ++ stringifyTail t ++ "]"
  | .onil => "\x7b\x7d"
  | .ocons k v t =>
      "\x7b\"" ++ k ++ "\":" ++ stringifyJ v ++ stringifyObjTail t ++ "\x7d"
where
  stringifyTail : JVal → String
    | .acons v t => "," ++ stringifyJ v ++ stringifyTail t
    | _ => ""
  stringifyObjTail : JVal → String
    | .ocons k v t => ",\"" ++ k ++ "\":" ++ stringifyJ v ++ stringifyObjTail t
    | _ => ""

/-- The outcome of `userDataRef.get()`: an exception, a missing document,
or the document data. -/
inductive Fetch where
  | failure
  | missing
  | found (d : Doc)

/-- Load one truthy remote field into its local key (`if (cloudData.k)
localStorage.setItem(key, JSON.stringify(cloudData.k))`). -/
def loadField (v : Option JVal) : Option String :=
  match v with
  | some x => if truthy x then some (stringifyJ x) else none
  | none => none

/-- `!!(localOwnerId && localOwnerId !== userId)` — the ownership guard
trigger. -/
def isDifferentUser (userId : String) (s0 : LS) : Bool :=
  match s0.owner with
  | some o => !(o == "") && !(o == userId)
  | none => false

/-- The pre-pull snapshot as `syncFromCloud` takes it: skipped (`none`)
when a different account owned the cache. -/
def pullSnapshot (userId : String) (s0 : LS) : Option Snap :=
  if isDifferentUser userId s0 then none else some (getLocalSnapshot s0)

/-- The local state at the moment the remote document is fetched: wiped
first exactly when a different account owned the cache. -/
def preFetchState (userId : String) (s0 : LS) : LS :=
  if isDifferentUser userId s0 then clearAllLocalData s0 else s0

/-- `CloudStorage.syncFromCloud` for a signed-in account `userId`, with the
remote fetch outcome supplied as data.  Returns the final local state and
the reported sync status.  The fetch is the fallible step (the failure
branch models the catch handler). -/
def syncFromCloud (userId : String) (fetch : Fetch) (s0 : LS) : LS × String :=
  let localSnapshot := pullSnapshot userId s0
  let s1 := preFetchState userId s0
  match fetch with
  | .failure =>
      let s2 :=
        match localSnapshot with
        | some sn =>
            if snapNonempty sn then
              { restoreLocalSnapshot sn s1 with owner := some userId }
            else s1
        | none => s1
      (s2, "Sync failed")
  | .missing =>
      ({ s1 with owner := some userId }, "Synced")
  | .found d =>
      let _s2 := clearAllLocalData s1
      let s3 : LS :=
        { workouts := loadField d.workouts,
          nutrition := loadField d.nutrition,
          metrics := loadField d.metrics,
          goals := loadField d.goals,
          settings := loadField d.settings,
          owner := some userId }
      (s3, "Synced")

/-! ### Association-list lemmas -/

theorem rget_rset_self (r : Rec) (k : String) (v : JVal) :
    rget (rset r k v) k = some v := by
  induction r with
  | nil => simp [rget, rset]
  | cons p t ih =>
      obtain ⟨k', v'⟩ := p
      by_cases h : k' = k
      · subst h; simp [rget, rset]
      · simp [rget, rset, h, ih]

theorem rget_rset_ne (r : Rec) (k k' : String) (v : JVal) (h : k' ≠ k) :
    rget (rset r k v) k' = rget r k' := by
  induction r with
  | nil => simp [rget, rset, Ne.symm h]
  | cons p t ih =>
      obtain ⟨k0, v0⟩ := p
      by_cases h0 : k0 = k
      · subst h0
        simp [rget, rset, Ne.symm h]
      · by_cases h1 : k0 = k'
        · subst h1; simp [rget, rset, h0]
        · simp [rget, rset, h0, h1, ih]

theorem rset_self (r : Rec) (k : String) (v : JVal) (h : rget r k = some v) :
    rset r k v = r := by
  induction r with
  | nil => simp [rget] at h
  | cons p t ih =>
      obtain ⟨k0, v0⟩ := p
      by_cases h0 : k0 = k
      · subst h0
        simp only [rget, if_pos trivial, Option.some.injEq] at h
        simp [rset, h.symm]
      · simp only [rget, if_neg h0] at h
        simp [rset, h0, ih h]

/-! ### Association-list structure lemmas (for the settings idempotence) -/

def keysOf (r : Rec) : List String := r.map Prod.fst

theorem keys_rset (r : Rec) (k : String) (v : JVal) :
    keysOf (rset r k v) = if k ∈ keysOf r then keysOf r else keysOf r ++ [k] := by
  induction r with
  | nil => simp [keysOf, rset]
  | cons p t ih =>
      obtain ⟨k0, v0⟩ := p
      by_cases h0 : k0 = k
      · subst h0
        simp [keysOf, rset]
      · have hcons2 : keysOf ((k0, v0) :: rset t k v) = k0 :: keysOf (rset t k v) := rfl
        have hmem : (k ∈ k0 :: keysOf t) ↔ k ∈ keysOf t := by
          simp [Ne.symm h0]
        simp only [rset, if_neg h0, hcons2, ih]
        show _ = if k ∈ k0 :: keysOf t then k0 :: keysOf t else (k0 :: keysOf t) ++ [k]
        by_cases hm : k ∈ keysOf t
        · rw [if_pos hm, if_pos (hmem.mpr hm)]
        · rw [if_neg hm, if_neg (fun hc => hm (hmem.mp hc))]
          rfl

theorem keys_rset_nodup (r : Rec) (k : String) (v : JVal)
    (h : (keysOf r).Nodup) : (keysOf (rset r k v)).Nodup := by
  rw [keys_rset]
  by_cases hm : k ∈ keysOf r
  · simpa [hm] using h
  · simp only [hm, if_false]
    simpa [List.nodup_append] using ⟨h, hm⟩

theorem rget_isSome_of_mem_keys (r : Rec) (k : String) (h : k ∈ keysOf r) :
    ∃ v, rget r k = some v := by
  induction r with
  | nil => simp [keysOf] at h
  | cons p t ih =>
      obtain ⟨k0, v0⟩ := p
      by_cases h0 : k0 = k
      · subst h0
        exact ⟨v0, by simp [rget]⟩
      · simp only [keysOf, List.map_cons, List.mem_cons] at h
        rcases h with h | h
        · exact absurd h.symm h0
        · obtain ⟨v, hv⟩ := ih h
          exact ⟨v, by simp [rget, h0, hv]⟩

/-- A spread `{...a, ...b}` only prepends the keys of `a`. -/
theorem keys_rmerge (a b : Rec) : ∃ ext, keysOf (rmerge a b) = keysOf a ++ ext := by
  induction b generalizing a with
  | nil => exact ⟨[], by simp [rmerge]⟩
  | cons p t ih =>
      obtain ⟨k, v⟩ := p
      have hstep : rmerge a ((k, v) :: t) = rmerge (rset a k v) t := rfl
      obtain ⟨e1, he1⟩ := ih (rset a k v)
      rw [hstep, he1, keys_rset]
      by_cases hm : k ∈ keysOf a
      · exact ⟨e1, by simp [hm]⟩
      · exact ⟨[k] ++ e1, by simp [hm]⟩

theorem keys_rmerge_nodup (a b : Rec) (h : (keysOf a).Nodup) :
    (keysOf (rmerge a b)).Nodup := by
  induction b generalizing a with
  | nil => simpa [rmerge] using h
  | cons p t ih =>
      obtain ⟨k, v⟩ := p
      exact ih (rset a k v) (keys_rset_nodup a k v h)

theorem rset_append_of_not_mem (r : Rec) (k : String) (v : JVal)
    (h : k ∉ keysOf r) : rset r k v = r ++ [(k, v)] := by
  induction r with
  | nil => rfl
  | cons p t ih =>
      obtain ⟨k0, v0⟩ := p
      have h1 : ¬(k0 = k) := by
        intro he
        refine h ?_
        show k ∈ k0 :: keysOf t
        rw [he]
        exact List.mem_cons_self ..
      have h2 : k ∉ keysOf t := fun hm => h (List.mem_cons_of_mem _ hm)
      simp only [rset, if_neg h1, List.cons_append]
      rw [ih h2]

theorem rmerge_append_of_disjoint (t : Rec) : ∀ acc : Rec,
    (∀ k ∈ keysOf t, k ∉ keysOf acc) → (keysOf t).Nodup →
    rmerge acc t = acc ++ t := by
  induction t with
  | nil => intro acc _ _; simp [rmerge]
  | cons p t ih =>
      obtain ⟨k, v⟩ := p
      intro acc hdis hnd
      have hstep : rmerge acc ((k, v) :: t) = rmerge (rset acc k v) t := rfl
      have hknd : k ∉ keysOf t := by
        have := hnd
        simp only [keysOf, List.map_cons, List.nodup_cons] at this
        exact this.1
      rw [hstep, rset_append_of_not_mem acc k v (hdis k (List.mem_cons_self ..))]
      rw [ih (acc ++ [(k, v)]) ?_ ?_]
      · simp
      · intro k2 hk2
        have h1 : k2 ∉ keysOf acc := hdis k2 (List.mem_cons_of_mem _ hk2)
        have h2 : k2 ≠ k := fun he => hknd (he ▸ hk2)
        have he : keysOf (acc ++ [(k, v)]) = keysOf acc ++ [k] := by
          simp [keysOf]
        rw [he]
        intro hmem
        rcases List.mem_append.mp hmem with hc | hc
        · exact h1 hc
        · exact h2 (by simpa using hc)
      · have := hnd
        simp only [keysOf, List.map_cons, List.nodup_cons] at this
        exact this.2

theorem rmerge_cons_of_not_mem (t : Rec) : ∀ (a : Rec) (k : String) (v : JVal),
    k ∉ keysOf t → rmerge ((k, v) :: a) t = (k, v) :: rmerge a t := by
  induction t with
  | nil => intro a k v _; rfl
  | cons q t ih =>
      obtain ⟨k2, v2⟩ := q
      intro a k v hk
      have hne : ¬(k = k2) := by
        intro he
        refine hk ?_
        show k ∈ k2 :: keysOf t
        rw [he]
        exact List.mem_cons_self ..
      have hstep : rmerge ((k, v) :: a) ((k2, v2) :: t)
          = rmerge (rset ((k, v) :: a) k2 v2) t := rfl
      rw [hstep]
      have hrs : rset ((k, v) :: a) k2 v2 = (k, v) :: rset a k2 v2 := by
        simp only [rset, if_neg hne]
      rw [hrs, ih (rset a k2 v2) k v (fun hm => hk (List.mem_cons_of_mem _ hm))]
      rfl

/-- Merging `a` into a record whose key sequence extends the keys of `a`
is the identity. -/
theorem rmerge_eq_self (a : Rec) : ∀ (b : Rec) (ext : List String),
    keysOf b = keysOf a ++ ext → (keysOf b).Nodup → rmerge a b = b := by
  induction a with
  | nil =>
      intro b ext hk hnd
      have : rmerge [] b = [] ++ b :=
        rmerge_append_of_disjoint b [] (by simp [keysOf]) hnd
      simpa using this
  | cons p a' ih =>
      obtain ⟨ka, va⟩ := p
      intro b ext hk hnd
      cases b with
      | nil => simp [keysOf] at hk
      | cons q b' =>
          obtain ⟨kb, vb⟩ := q
          simp only [keysOf, List.map_cons, List.cons_append, List.cons.injEq] at hk
          obtain ⟨hkab, hk'⟩ := hk
          subst hkab
          have hstep : rmerge ((kb, va) :: a') ((kb, vb) :: b')
              = rmerge (rset ((kb, va) :: a') kb vb) b' := rfl
          have hrs : rset ((kb, va) :: a') kb vb = (kb, vb) :: a' := by
            simp [rset]
          have hknd : kb ∉ keysOf b' := by
            have := hnd
            simp only [keysOf, List.map_cons, List.nodup_cons] at this
            exact this.1
          rw [hstep, hrs, rmerge_cons_of_not_mem b' a' kb vb hknd]
          rw [ih b' ext hk' ?_]
          have := hnd
          simp only [keysOf, List.map_cons, List.nodup_cons] at this
          exact this.2

/-! ### Trim and format lemmas -/

theorem dropWhile_eq_self_of_all (l : List Char) (h : ∀ c ∈ l, wsChar c = false) :
    l.dropWhile wsChar = l := by
  cases l with
  | nil => rfl
  | cons a t => simp [List.dropWhile, h a (List.mem_cons_self ..)]

theorem trimChars_eq_self (l : List Char) (h : ∀ c ∈ l, wsChar c = false) :
    trimChars l = l := by
  unfold trimChars
  rw [dropWhile_eq_self_of_all l h,
      dropWhile_eq_self_of_all _ (fun c hc => h c (by simpa using hc)),
      List.reverse_reverse]

theorem head_dropWhile_false {α : Type} (p : α → Bool) (l : List α) :
    ∀ a, (l.dropWhile p).head? = some a → p a = false := by
  induction l with
  | nil => intro a h; simp [List.dropWhile] at h
  | cons x t ih =>
      intro a h
      by_cases hx : p x = true
      · rw [List.dropWhile_cons_of_pos hx] at h
        exact ih a h
      · rw [List.dropWhile_cons_of_neg hx] at h
        simp only [List.head?_cons, Option.some.injEq] at h
        subst h
        exact Bool.eq_false_iff.mpr hx

theorem dropWhile_eq_self_of_head {α : Type} (p : α → Bool) (l : List α)
    (h : ∀ a, l.head? = some a → p a = false) : l.dropWhile p = l := by
  cases l with
  | nil => rfl
  | cons x t => exact List.dropWhile_cons_of_neg (by simp [h x rfl])

theorem trimChars_idem (l : List Char) : trimChars (trimChars l) = trimChars l := by
  unfold trimChars
  set A := l.dropWhile wsChar with hA
  set B := A.reverse.dropWhile wsChar with hB
  have hBsuffix : B <:+ A.reverse := List.dropWhile_suffix wsChar
  have hfront : B.reverse.dropWhile wsChar = B.reverse := by
    refine dropWhile_eq_self_of_head _ _ (fun a ha => ?_)
    rw [List.head?_reverse] at ha
    have hBne : B ≠ [] := by
      intro hn
      rw [hn] at ha
      simp at ha
    rcases hBsuffix with ⟨pre, hpre⟩
    have hAr : A.reverse.getLast? = some a := by
      rw [← hpre, List.getLast?_append, ha]
      rfl
    have hheadA : A.head? = some a := by
      rwa [List.getLast?_reverse] at hAr
    exact head_dropWhile_false wsChar l a hheadA
  rw [hfront, List.reverse_reverse]
  have hdwB : B.dropWhile wsChar = B :=
    dropWhile_eq_self_of_head _ _
      (fun a ha => head_dropWhile_false wsChar A.reverse a ha)
  rw [hdwB]

theorem jsTrim_idem (s : String) : jsTrim (jsTrim s) = jsTrim s := by
  show (⟨trimChars (jsTrim s).data⟩ : String) = jsTrim s
  have hd : (jsTrim s).data = trimChars s.data := rfl
  rw [hd, trimChars_idem]
  rfl

theorem ws_toNat_le (c : Char) (h : wsChar c = true) : c.toNat ≤ 32 := by
  simp only [wsChar, Bool.or_eq_true, beq_iff_eq] at h
  rcases h with ((((h | h) | h) | h) | h) | h <;> subst h <;> decide

theorem isDigit_not_ws (c : Char) (h : isDigitCh c = true) : wsChar c = false := by
  by_contra hc
  have hw : wsChar c = true := by
    revert hc
    cases wsChar c <;> simp
  have h1 := ws_toNat_le c hw
  simp only [isDigitCh, Bool.and_eq_true, decide_eq_true_eq] at h
  omega

theorem isFullDateChars_not_ws (l : List Char) (h : isFullDateChars l = true) :
    ∀ c ∈ l, wsChar c = false := by
  rcases l with _ | ⟨c0, _ | ⟨c1, _ | ⟨c2, _ | ⟨c3, _ | ⟨c4, _ | ⟨c5, _ | ⟨c6,
    _ | ⟨c7, _ | ⟨c8, _ | ⟨c9, _ | ⟨c10, rest⟩⟩⟩⟩⟩⟩⟩⟩⟩⟩⟩ <;>
    try exact Bool.noConfusion h
  simp only [isFullDateChars, Bool.and_eq_true, beq_iff_eq] at h
  obtain ⟨⟨⟨⟨⟨⟨⟨⟨⟨h0, h1⟩, h2⟩, h3⟩, h4⟩, h5⟩, h6⟩, h7⟩, h8⟩, h9⟩ := h
  intro c hc
  simp only [List.mem_cons, List.not_mem_nil, or_false] at hc
  rcases hc with rfl | rfl | rfl | rfl | rfl | rfl | rfl | rfl | rfl | rfl
  · exact isDigit_not_ws _ h0
  · exact isDigit_not_ws _ h1
  · exact isDigit_not_ws _ h2
  · exact isDigit_not_ws _ h3
  · rw [h4]; decide
  · exact isDigit_not_ws _ h5
  · exact isDigit_not_ws _ h6
  · rw [h7]; decide
  · exact isDigit_not_ws _ h8
  · exact isDigit_not_ws _ h9

theorem full_date_trim (s : String) (h : isFullDate s = true) : jsTrim s = s := by
  show (⟨trimChars s.data⟩ : String) = s
  rw [trimChars_eq_self s.data (isFullDateChars_not_ws s.data h)]

theorem normalizeDateValue_full (ctx : Ctx) (v : Option JVal)
    (htoday : isFullDate ctx.today = true) :
    isFullDate (normalizeDateValue ctx v none) = true := by
  unfold normalizeDateValue
  rcases v with _ | x
  · exact htoday
  · cases x <;> try exact htoday
    rename_i s
    by_cases h1 : isFullDate (jsTrim s) = true
    · simpa [h1] using h1
    · by_cases h2 : isDateTimeStart (jsTrim s) = true
      · simp only [Bool.not_eq_true] at h1
        simp only [h1, h2, Bool.false_eq_true, if_false, if_true]
        simp only [isDateTimeStart, Bool.and_eq_true] at h2
        exact h2.1
      · simp only [Bool.not_eq_true] at h1 h2
        simpa [h1, h2] using htoday

theorem normalizeDateValue_idem (ctx : Ctx) (v : Option JVal)
    (htoday : isFullDate ctx.today = true) :
    normalizeDateValue ctx (some (.str (normalizeDateValue ctx v none))) none
      = normalizeDateValue ctx v none := by
  have hfd := normalizeDateValue_full ctx v htoday
  conv_lhs => rw [normalizeDateValue]
  simp [full_date_trim _ hfd, hfd]

/-! ### Calendar lemmas: the `YYYY-MM-DD` rendering is order-faithful -/

theorem orderingThen_assoc (a b c : Ordering) :
    (a.then b).then c = a.then (b.then c) := by
  cases a <;> rfl

theorem cmpChars_append (xs u v : List Char) (ys : List Char) (h : xs.length = ys.length) :
    cmpChars (xs ++ u) (ys ++ v) = (cmpChars xs ys).then (cmpChars u v) := by
  induction xs generalizing ys with
  | nil =>
      cases ys with
      | nil => rfl
      | cons b bs => simp at h
  | cons a as ih =>
      cases ys with
      | nil => simp at h
      | cons b bs =>
          simp only [List.cons_append, cmpChars, List.append_eq]
          rw [ih bs (by simpa using h), orderingThen_assoc]

theorem orderingThen_eq (a : Ordering) : a.then .eq = a := by
  cases a <;> rfl

theorem cmpChars_cons (a b : Char) (as bs : List Char) :
    cmpChars (a :: as) (b :: bs) = (compare a.toNat b.toNat).then (cmpChars as bs) := rfl

theorem digit_cmp : ∀ a < 10, ∀ b < 10,
    compare (Char.ofNat (48 + a)).toNat (Char.ofNat (48 + b)).toNat = compare a b := by
  decide

theorem compare_mul_add (a1 a2 r1 r2 b : Nat) (h1 : r1 < b) (h2 : r2 < b) :
    compare (a1 * b + r1) (a2 * b + r2) = (compare a1 a2).then (compare r1 r2) := by
  rcases Nat.lt_trichotomy a1 a2 with h | h | h
  · have hlt : a1 * b + r1 < a2 * b + r2 := by
      have hle : (a1 + 1) * b ≤ a2 * b := Nat.mul_le_mul_right b (Nat.succ_le_of_lt h)
      have : a1 * b + b ≤ a2 * b := by simpa [Nat.succ_mul] using hle
      omega
    rw [Nat.compare_eq_lt.mpr h, Nat.compare_eq_lt.mpr hlt]
    rfl
  · subst h
    rw [Nat.compare_eq_eq.mpr rfl]
    have : compare (a1 * b + r1) (a1 * b + r2) = compare r1 r2 := by
      rcases Nat.lt_trichotomy r1 r2 with hr | hr | hr
      · rw [Nat.compare_eq_lt.mpr hr, Nat.compare_eq_lt.mpr (by omega)]
      · subst hr; rw [Nat.compare_eq_eq.mpr rfl, Nat.compare_eq_eq.mpr rfl]
      · rw [Nat.compare_eq_gt.mpr hr, Nat.compare_eq_gt.mpr (by omega)]
    rw [this]
    rfl
  · have hgt : a2 * b + r2 < a1 * b + r1 := by
      have hle : (a2 + 1) * b ≤ a1 * b := Nat.mul_le_mul_right b (Nat.succ_le_of_lt h)
      have : a2 * b + b ≤ a1 * b := by simpa [Nat.succ_mul] using hle
      omega
    rw [Nat.compare_eq_gt.mpr h, Nat.compare_eq_gt.mpr hgt]
    rfl

theorem pad2_length (n : Nat) : (pad2 n).length = 2 := rfl

theorem pad4_length (n : Nat) : (pad4 n).length = 4 := rfl

theorem pad2_cmp (a b : Nat) (ha : a < 100) (hb : b < 100) :
    cmpChars (pad2 a) (pad2 b) = compare a b := by
  unfold pad2
  simp only [cmpChars]
  rw [digit_cmp _ (Nat.mod_lt _ (by omega)) _ (Nat.mod_lt _ (by omega)),
      digit_cmp _ (Nat.mod_lt _ (by omega)) _ (Nat.mod_lt _ (by omega)), orderingThen_eq]
  rw [Nat.mod_eq_of_lt (Nat.div_lt_of_lt_mul (by omega)),
      Nat.mod_eq_of_lt (Nat.div_lt_of_lt_mul (by omega))]
  have h := compare_mul_add (a / 10) (b / 10) (a % 10) (b % 10) 10
    (Nat.mod_lt _ (by omega)) (Nat.mod_lt _ (by omega))
  rw [Nat.div_add_mod', Nat.div_add_mod'] at h
  exact h.symm

theorem pad4_cmp (a b : Nat) (ha : a < 10000) (hb : b < 10000) :
    cmpChars (pad4 a) (pad4 b) = compare a b := by
  unfold pad4
  rw [cmpChars_append _ _ _ _ (by rw [pad2_length, pad2_length])]
  rw [pad2_cmp _ _ (Nat.div_lt_of_lt_mul (by omega)) (Nat.div_lt_of_lt_mul (by omega)),
      pad2_cmp _ _ (Nat.mod_lt _ (by omega)) (Nat.mod_lt _ (by omega))]
  have h := compare_mul_add (a / 100) (b / 100) (a % 100) (b % 100) 100
    (Nat.mod_lt _ (by omega)) (Nat.mod_lt _ (by omega))
  rw [Nat.div_add_mod', Nat.div_add_mod'] at h
  exact h.symm

theorem fmt_cmp (c1 c2 : CivDate)
    (hy1 : c1.y < 10000) (hy2 : c2.y < 10000)
    (hm1 : c1.m < 100) (hm2 : c2.m < 100) (hd1 : c1.d < 100) (hd2 : c2.d < 100) :
    cmpChars (fmtDateChars c1) (fmtDateChars c2) = compare (dateKey c1) (dateKey c2) := by
  unfold fmtDateChars
  rw [cmpChars_append _ _ _ _ (by rw [pad4_length, pad4_length])]
  rw [pad4_cmp _ _ hy1 hy2]
  rw [cmpChars_cons]
  rw [show compare '-'.toNat '-'.toNat = Ordering.eq from rfl]
  rw [cmpChars_append _ _ _ _ (by rw [pad2_length, pad2_length])]
  rw [pad2_cmp _ _ hm1 hm2]
  rw [cmpChars_cons]
  rw [show compare '-'.toNat '-'.toNat = Ordering.eq from rfl]
  rw [pad2_cmp _ _ hd1 hd2]
  unfold dateKey
  rw [compare_mul_add _ _ _ _ _ hd1 hd2, compare_mul_add _ _ _ _ _ hm1 hm2]
  rw [orderingThen_assoc]
  rfl

/-! #### Calendar arithmetic facts -/

theorem daysInMonth_bounds (y m : Nat) :
    1 ≤ daysInMonth y m ∧ daysInMonth y m ≤ 31 := by
  unfold daysInMonth
  split_ifs <;> omega

theorem nextDay_valid (c : CivDate) (h : validDate c) : validDate (nextDay c) := by
  obtain ⟨h1, h2, h3, h4⟩ := h
  unfold nextDay
  by_cases hd : c.d < daysInMonth c.y c.m
  · rw [if_pos hd]
    show 1 ≤ c.m ∧ c.m ≤ 12 ∧ 1 ≤ c.d + 1 ∧ c.d + 1 ≤ daysInMonth c.y c.m
    exact ⟨h1, h2, by omega, by omega⟩
  · rw [if_neg hd]
    by_cases hm : c.m < 12
    · rw [if_pos hm]
      show 1 ≤ c.m + 1 ∧ c.m + 1 ≤ 12 ∧ 1 ≤ 1 ∧ 1 ≤ daysInMonth c.y (c.m + 1)
      exact ⟨by omega, by omega, le_refl 1, (daysInMonth_bounds c.y (c.m + 1)).1⟩
    · rw [if_neg hm]
      show 1 ≤ 1 ∧ 1 ≤ 12 ∧ 1 ≤ 1 ∧ 1 ≤ daysInMonth (c.y + 1) 1
      exact ⟨le_refl 1, by omega, le_refl 1, (daysInMonth_bounds (c.y + 1) 1).1⟩

theorem nextDay_key_lt (c : CivDate) (h : validDate c) :
    dateKey c < dateKey (nextDay c) := by
  obtain ⟨h1, h2, h3, h4⟩ := h
  have h31 := (daysInMonth_bounds c.y c.m).2
  unfold nextDay
  by_cases hd : c.d < daysInMonth c.y c.m
  · rw [if_pos hd]
    show (c.y * 100 + c.m) * 100 + c.d < (c.y * 100 + c.m) * 100 + (c.d + 1)
    omega
  · rw [if_neg hd]
    by_cases hm : c.m < 12
    · rw [if_pos hm]
      show (c.y * 100 + c.m) * 100 + c.d < (c.y * 100 + (c.m + 1)) * 100 + 1
      omega
    · rw [if_neg hm]
      show (c.y * 100 + c.m) * 100 + c.d < ((c.y + 1) * 100 + 1) * 100 + 1
      omega

theorem nextDay_y_le (c : CivDate) : c.y ≤ (nextDay c).y := by
  unfold nextDay
  split_ifs <;> simp

theorem addDays_valid (n : Nat) (c : CivDate) (h : validDate c) :
    validDate (addDays n c) := by
  induction n with
  | zero => exact h
  | succ k ih =>
      unfold addDays
      rw [Function.iterate_succ_apply']
      exact nextDay_valid _ ih

theorem addDays_key_le (n : Nat) (c : CivDate) (h : validDate c) :
    dateKey c ≤ dateKey (addDays n c) := by
  induction n with
  | zero => exact le_refl _
  | succ k ih =>
      unfold addDays
      rw [Function.iterate_succ_apply']
      exact le_trans ih (le_of_lt (nextDay_key_lt _ (addDays_valid k c h)))

theorem addDays_y_le (n : Nat) (c : CivDate) : c.y ≤ (addDays n c).y := by
  induction n with
  | zero => exact le_refl _
  | succ k ih =>
      unfold addDays
      rw [Function.iterate_succ_apply']
      exact le_trans ih (nextDay_y_le _)

theorem valid_md_lt (c : CivDate) (h : validDate c) : c.m < 100 ∧ c.d < 100 := by
  obtain ⟨_, h2, _, h4⟩ := h
  have := (daysInMonth_bounds c.y c.m).2
  omega

/-! #### The rendering is a well-formed, whitespace-free date literal -/

theorem digit_isDigit : ∀ k < 10, isDigitCh (Char.ofNat (48 + k)) = true := by decide

theorem digit_not_ws : ∀ k < 10, wsChar (Char.ofNat (48 + k)) = false := by decide

theorem isFullDate_fmt (c : CivDate) : isFullDate (fmtDate c) = true := by
  show isFullDateChars (fmtDateChars c) = true
  simp only [fmtDateChars, pad4, pad2, List.cons_append, List.nil_append, isFullDateChars]
  rw [digit_isDigit _ (Nat.mod_lt _ (by omega)), digit_isDigit _ (Nat.mod_lt _ (by omega)),
      digit_isDigit _ (Nat.mod_lt _ (by omega)), digit_isDigit _ (Nat.mod_lt _ (by omega)),
      digit_isDigit _ (Nat.mod_lt _ (by omega)), digit_isDigit _ (Nat.mod_lt _ (by omega)),
      digit_isDigit _ (Nat.mod_lt _ (by omega)), digit_isDigit _ (Nat.mod_lt _ (by omega))]
  rfl

theorem fmt_no_ws (c : CivDate) : ∀ ch ∈ (fmtDate c).data, wsChar ch = false := by
  show ∀ ch ∈ fmtDateChars c, wsChar ch = false
  simp only [fmtDateChars, pad4, pad2, List.cons_append, List.nil_append, List.mem_cons,
    List.not_mem_nil, or_false]
  intro ch hch
  rcases hch with rfl | rfl | rfl | rfl | rfl | rfl | rfl | rfl | rfl | rfl
  · exact digit_not_ws _ (Nat.mod_lt _ (by omega))
  · exact digit_not_ws _ (Nat.mod_lt _ (by omega))
  · exact digit_not_ws _ (Nat.mod_lt _ (by omega))
  · exact digit_not_ws _ (Nat.mod_lt _ (by omega))
  · rfl
  · exact digit_not_ws _ (Nat.mod_lt _ (by omega))
  · exact digit_not_ws _ (Nat.mod_lt _ (by omega))
  · rfl
  · exact digit_not_ws _ (Nat.mod_lt _ (by omega))
  · exact digit_not_ws _ (Nat.mod_lt _ (by omega))

theorem jsTrim_fmt (c : CivDate) : jsTrim (fmtDate c) = fmtDate c := by
  show (⟨trimChars (fmtDate c).data⟩ : String) = fmtDate c
  rw [trimChars_eq_self _ (fmt_no_ws c)]

theorem fmtDate_ne_empty (c : CivDate) : fmtDate c ≠ "" := by
  intro h
  have h2 : fmtDateChars c = [] := congrArg String.data h
  simp only [fmtDateChars, pad4, pad2, List.cons_append, List.nil_append] at h2
  exact List.cons_ne_nil _ _ h2

/-- The JS string comparison `fmtDate a >= fmtDate b` agrees with the
chronological order. -/
theorem strGe_fmt (a b : CivDate) (hva : validDate a) (hvb : validDate b)
    (hya : a.y < 10000) (hyb : b.y < 10000) :
    strGe (fmtDate a) (fmtDate b) = true ↔ dateLe b a := by
  obtain ⟨hma, hda⟩ := valid_md_lt a hva
  obtain ⟨hmb, hdb⟩ := valid_md_lt b hvb
  show decide (cmpChars (fmtDate a).data (fmtDate b).data ≠ Ordering.lt) = true ↔ _
  rw [decide_eq_true_iff]
  show cmpChars (fmtDateChars a) (fmtDateChars b) ≠ Ordering.lt ↔ _
  rw [fmt_cmp a b hya hyb hma hmb hda hdb]
  constructor
  · intro h
    by_contra hc
    exact h (Nat.compare_eq_lt.mpr (by unfold dateLe at hc; omega))
  · intro h hc
    have := Nat.compare_eq_lt.mp hc
    unfold dateLe at h
    omega

/-! ### Onboarding pipeline lemmas -/

theorem objSource_jobj (r : Rec) : objSource (some (jobj r)) = r := by
  cases r with
  | nil => rfl
  | cons p t =>
      obtain ⟨k, v⟩ := p
      simp [objSource, jobj, truthy, typeofObject, asObj?]

/-- The two onboarding fields of a normalized settings object whose source
carries an explicit `onboardingCompleted: false` and a string deferral. -/
theorem normalizeSettings_not_completed (ctx : Ctx) (src : Rec) (hb : Bool) (ds : String)
    (hc : rget src "onboardingCompleted" = some (.bool false))
    (hd : rget src "onboardingDeferredUntil" = some (.str ds)) :
    rget (normalizeSettings ctx (some (jobj src)) hb) "onboardingCompleted"
      = some (.bool false) ∧
    rget (normalizeSettings ctx (some (jobj src)) hb) "onboardingDeferredUntil"
      = some (if normalizeDateValue ctx (some (.str ds)) none ≠ "" ∧
                 strGe (normalizeDateValue ctx (some (.str ds)) none) ctx.today
              then JVal.str (normalizeDateValue ctx (some (.str ds)) none)
              else JVal.null) := by
  constructor
  · simp only [normalizeSettings, objSource_jobj, hc]
    rw [rget_rset_ne _ _ _ _ (by decide), rget_rset_ne _ _ _ _ (by decide), rget_rset_self]
    rfl
  · simp only [normalizeSettings, objSource_jobj, hc, hd]
    rw [rget_rset_self]
    rfl

/-- The merged object written by `settings.set` for a deferral update
keeps the explicit (false) completion flag of the current settings and
holds the incoming deferral string. -/
theorem settingsSetMerged_deferral (ctx : Ctx) (ds : String) (s : Store)
    (hnc : rget (settingsGet ctx s) "onboardingCompleted" = some (.bool false)) :
    rget (settingsSetMerged ctx [("onboardingDeferredUntil", .str ds)] s)
        "onboardingCompleted" = some (.bool false) ∧
    rget (settingsSetMerged ctx [("onboardingDeferredUntil", .str ds)] s)
        "onboardingDeferredUntil" = some (.str ds) := by
  obtain ⟨P, W, e⟩ : ∃ P W,
      settingsSetMerged ctx [("onboardingDeferredUntil", .str ds)] s
        = rset (rset (rset (settingsGet ctx s) "onboardingDeferredUntil" (.str ds))
            "profile" P) "defaultFastingWindow" W :=
    ⟨_, _, rfl⟩
  rw [e]
  constructor
  · rw [rget_rset_ne _ _ _ _ (by decide), rget_rset_ne _ _ _ _ (by decide),
        rget_rset_ne _ _ _ _ (by decide)]
    exact hnc
  · rw [rget_rset_ne _ _ _ _ (by decide), rget_rset_ne _ _ _ _ (by decide),
        rget_rset_self]

/-- A rendered civil date passes `normalizeDateValue` unchanged. -/
theorem normalizeDateValue_fmt (ctx : Ctx) (c : CivDate) :
    normalizeDateValue ctx (some (.str (fmtDate c))) none = fmtDate c := by
  simp [normalizeDateValue, jsTrim_fmt, isFullDate_fmt]

/-- Reading settings back after `settings.set` re-normalizes the stored
normalized object. -/
theorem settingsGet_settingsSet (ctxA ctxB : Ctx) (inc : Rec) (s : Store) :
    settingsGet ctxB (settingsSet ctxA inc s)
      = normalizeSettings ctxB
          (some (jobj (normalizeSettings ctxA
            (some (jobj (settingsSetMerged ctxA inc s))) false))) false := by
  unfold settingsGet settingsSet
  rfl

/-- `shouldPrompt` when onboarding is not completed and a non-empty
deferral string is present: it prompts exactly when the deferred date has
passed (`deferredUntil >= today` fails). -/
theorem shouldPrompt_of_deferred_kept (ctx : Ctx) (s : Store) (ds : String)
    (h1 : rget (settingsGet ctx s) "onboardingCompleted" = some (.bool false))
    (h2 : rget (settingsGet ctx s) "onboardingDeferredUntil" = some (.str ds))
    (hne : ds ≠ "") :
    shouldPrompt ctx s = !(strGe ds ctx.today) := by
  simp only [shouldPrompt, h1, h2, truthyO, truthy]
  simp [hne]

/-- `shouldPrompt` when onboarding is not completed and the deferral was
dropped (null): it prompts. -/
theorem shouldPrompt_of_deferred_null (ctx : Ctx) (s : Store)
    (h1 : rget (settingsGet ctx s) "onboardingCompleted" = some (.bool false))
    (h2 : rget (settingsGet ctx s) "onboardingDeferredUntil" = some .null) :
    shouldPrompt ctx s = true := by
  simp only [shouldPrompt, h1, h2, truthyO, truthy]
  simp

/-! ### Deduplication lemmas (`[...new Set(xs)]`) -/

theorem dedupFuel_congr : ∀ (n m : Nat) (l : List String), l.length ≤ n → l.length ≤ m →
    dedupFuel n l = dedupFuel m l := by
  intro n
  induction n with
  | zero =>
      intro m l hn _
      cases l with
      | nil => cases m <;> rfl
      | cons x xs => simp at hn
  | succ n ih =>
      intro m l hn hm
      cases l with
      | nil => cases m <;> rfl
      | cons x xs =>
          cases m with
          | zero => simp at hm
          | succ m =>
              have hlen := List.length_filter_le (· != x) xs
              exact congrArg (x :: ·)
                (ih m (xs.filter (· != x))
                  (le_trans hlen (Nat.le_of_succ_le_succ hn))
                  (le_trans hlen (Nat.le_of_succ_le_succ hm)))

theorem dedupFirst_cons (x : String) (xs : List String) :
    dedupFirst (x :: xs) = x :: dedupFirst (xs.filter (· != x)) :=
  congrArg (x :: ·)
    (dedupFuel_congr xs.length (xs.filter (· != x)).length (xs.filter (· != x))
      (List.length_filter_le _ _) le_rfl)

theorem dedupFirst_subset_fuel : ∀ (n : Nat) (l : List String), l.length ≤ n →
    ∀ x ∈ dedupFirst l, x ∈ l := by
  intro n
  induction n with
  | zero =>
      intro l hl x hx
      have he : l = [] := List.eq_nil_of_length_eq_zero (Nat.le_zero.mp hl)
      subst he
      simpa [dedupFirst, dedupFuel] using hx
  | succ n ih =>
      intro l hl x hx
      cases l with
      | nil => simpa [dedupFirst, dedupFuel] using hx
      | cons a t =>
          rw [dedupFirst_cons] at hx
          rcases List.mem_cons.mp hx with rfl | hx2
          · exact List.mem_cons_self ..
          · have hlen : (t.filter (· != a)).length ≤ n :=
              le_trans (List.length_filter_le _ _)
                (by simpa using Nat.le_of_succ_le_succ hl)
            exact List.mem_cons_of_mem _ (List.mem_of_mem_filter (ih _ hlen x hx2))

theorem dedupFirst_subset (l : List String) : ∀ x ∈ dedupFirst l, x ∈ l :=
  dedupFirst_subset_fuel l.length l le_rfl

theorem dedupFirst_nodup_fuel : ∀ (n : Nat) (l : List String), l.length ≤ n →
    (dedupFirst l).Nodup := by
  intro n
  induction n with
  | zero =>
      intro l hl
      have he : l = [] := List.eq_nil_of_length_eq_zero (Nat.le_zero.mp hl)
      subst he
      simp [dedupFirst, dedupFuel]
  | succ n ih =>
      intro l hl
      cases l with
      | nil => simp [dedupFirst, dedupFuel]
      | cons a t =>
          rw [dedupFirst_cons]
          have hlen : (t.filter (· != a)).length ≤ n :=
            le_trans (List.length_filter_le _ _)
              (by simpa using Nat.le_of_succ_le_succ hl)
          refine List.nodup_cons.mpr ⟨fun hmem => ?_, ih _ hlen⟩
          have := List.of_mem_filter (dedupFirst_subset _ a hmem)
          simp at this

theorem dedupFirst_nodup (l : List String) : (dedupFirst l).Nodup :=
  dedupFirst_nodup_fuel l.length l le_rfl

theorem dedupFirst_eq_self_fuel : ∀ (n : Nat) (l : List String), l.length ≤ n →
    l.Nodup → dedupFirst l = l := by
  intro n
  induction n with
  | zero =>
      intro l hl _
      have he : l = [] := List.eq_nil_of_length_eq_zero (Nat.le_zero.mp hl)
      subst he
      rfl
  | succ n ih =>
      intro l hl hnd
      cases l with
      | nil => rfl
      | cons a t =>
          obtain ⟨ha, ht⟩ := List.nodup_cons.mp hnd
          rw [dedupFirst_cons]
          have hf : t.filter (· != a) = t := by
            refine List.filter_eq_self.mpr fun b hb => ?_
            have : b ≠ a := fun he => ha (he ▸ hb)
            simpa using this
          rw [hf, ih t (by simpa using Nat.le_of_succ_le_succ hl) ht]

theorem dedupFirst_eq_self (l : List String) (h : l.Nodup) : dedupFirst l = l :=
  dedupFirst_eq_self_fuel l.length l le_rfl h

/-! ### Stability of the per-field settings normalizers -/

theorem strOfTruthy_str (s : String) : strOfTruthy (.str s) = s := by
  by_cases h : s = ""
  · subst h; rfl
  · simp [strOfTruthy, truthy, h, jsToString]

theorem normalizeThemeValue_cases (a b : Option JVal) :
    normalizeThemeValue a b = "light" ∨ normalizeThemeValue a b = "dark" := by
  unfold normalizeThemeValue
  split
  · exact Or.inl rfl
  · exact Or.inr rfl
  · split
    · exact Or.inl rfl
    · exact Or.inr rfl

theorem normalizeThemeValue_fix (t : String) (ht : t = "light" ∨ t = "dark")
    (dm : Option JVal) : normalizeThemeValue (some (.str t)) dm = t := by
  rcases ht with rfl | rfl <;> rfl

theorem wt_clean : ∀ s ∈ WORKOUT_TYPES, jsLower (jsTrim s) = s := by decide

theorem normalizeWorkoutSplit_props (v : Option JVal) :
    (∀ x ∈ normalizeWorkoutSplit v, x ∈ WORKOUT_TYPES) ∧
    (normalizeWorkoutSplit v).Nodup ∧ normalizeWorkoutSplit v ≠ [] := by
  have hbranch : ∀ N : List String, (∀ x ∈ N, WORKOUT_TYPES.contains x = true) →
      (∀ x ∈ (if (dedupFirst N).length > 0 then dedupFirst N else defaultSplit),
        x ∈ WORKOUT_TYPES) ∧
      (if (dedupFirst N).length > 0 then dedupFirst N else defaultSplit).Nodup ∧
      (if (dedupFirst N).length > 0 then dedupFirst N else defaultSplit) ≠ [] := by
    intro N hN
    by_cases hl : (dedupFirst N).length > 0
    · rw [if_pos hl]
      refine ⟨fun x hx => ?_, dedupFirst_nodup N, ?_⟩
      · have := hN x (dedupFirst_subset N x hx)
        simpa using this
      · exact List.length_pos.mp hl
    · rw [if_neg hl]
      exact ⟨by decide, by decide, by decide⟩
  simp only [normalizeWorkoutSplit]
  exact hbranch _ (fun x hx => (List.mem_filter.mp hx).2)

theorem normalizeWorkoutSplit_stable (sp : List String)
    (h1 : ∀ x ∈ sp, x ∈ WORKOUT_TYPES) (h2 : sp.Nodup) (h3 : sp ≠ []) :
    normalizeWorkoutSplit (some (jarr (jstrs sp))) = sp := by
  simp only [normalizeWorkoutSplit, asArr?_jarr, jstrs, List.map_map]
  have hmap : sp.map ((fun t => jsLower (jsTrim (strOfTruthy t))) ∘ fun s => JVal.str s)
      = sp.map (fun s => s) := by
    refine List.map_congr_left fun s hs => ?_
    show jsLower (jsTrim (strOfTruthy (.str s))) = s
    rw [strOfTruthy_str]
    exact wt_clean s (h1 s hs)
  rw [hmap, List.map_id']
  have hfilt : sp.filter (fun t => WORKOUT_TYPES.contains t) = sp := by
    refine List.filter_eq_self.mpr fun a ha => ?_
    simpa using h1 a ha
  rw [hfilt, dedupFirst_eq_self sp h2,
      if_pos (show sp.length > 0 from List.length_pos.mpr h3)]

theorem normalizeTimeValue_props (v : Option JVal) (fb : String)
    (hfb1 : jsTrim fb = fb) (hfb2 : isTimeStr fb = true) :
    jsTrim (normalizeTimeValue v fb) = normalizeTimeValue v fb ∧
    isTimeStr (normalizeTimeValue v fb) = true := by
  unfold normalizeTimeValue
  rcases v with _ | x
  · exact ⟨hfb1, hfb2⟩
  · cases x <;> try exact ⟨hfb1, hfb2⟩
    rename_i s
    by_cases ht : isTimeStr (jsTrim s) = true
    · constructor
      · simp [ht, jsTrim_idem]
      · simp [ht]
    · simp only [Bool.not_eq_true] at ht
      constructor
      · simp [ht, hfb1]
      · simp [ht, hfb2]

theorem normalizeFastingWindow_shape (v : Option JVal) :
    ∃ ts te, normalizeFastingWindow v = [("start", JVal.str ts), ("end", JVal.str te)] ∧
      jsTrim ts = ts ∧ isTimeStr ts = true ∧ jsTrim te = te ∧ isTimeStr te = true := by
  refine Exists.intro _ (Exists.intro _ (And.intro rfl ?_))
  refine ⟨?_, ?_, ?_, ?_⟩
  · exact (normalizeTimeValue_props _ "12:00" (by decide) (by decide)).1
  · exact (normalizeTimeValue_props _ "12:00" (by decide) (by decide)).2
  · exact (normalizeTimeValue_props _ "20:00" (by decide) (by decide)).1
  · exact (normalizeTimeValue_props _ "20:00" (by decide) (by decide)).2

theorem normalizeFastingWindow_stable (ts te : String)
    (h1 : jsTrim ts = ts) (h2 : isTimeStr ts = true)
    (h3 : jsTrim te = te) (h4 : isTimeStr te = true) :
    normalizeFastingWindow (some (jobj [("start", JVal.str ts), ("end", JVal.str te)]))
      = [("start", JVal.str ts), ("end", JVal.str te)] := by
  simp [normalizeFastingWindow, jobj, truthy, typeofObject, asObj?, rget,
        normalizeTimeValue, h1, h2, h3, h4]

theorem normalizeCustomExercises_props (v : Option JVal) :
    (∀ s ∈ normalizeCustomExercises v,
      jsTrim s = s ∧ 0 < s.length ∧ s.length ≤ 80) ∧
    (normalizeCustomExercises v).Nodup := by
  rcases v with _ | x
  · constructor
    · intro s hs
      simp [normalizeCustomExercises] at hs
    · simp [normalizeCustomExercises]
  · rcases hx : asArr? x with _ | xs
    · constructor
      · intro s hs
        simp [normalizeCustomExercises, hx] at hs
      · simp [normalizeCustomExercises, hx]
    · have hval : normalizeCustomExercises (some x)
          = dedupFirst ((xs.map (fun i => jsTrim (strOfTruthy i))).filter
              (fun s => decide (0 < s.length) && decide (s.length ≤ 80))) := by
        simp [normalizeCustomExercises, hx]
      rw [hval]
      refine ⟨fun s hs => ?_, dedupFirst_nodup _⟩
      have hs2 := dedupFirst_subset _ s hs
      have hmf := List.mem_filter.mp hs2
      obtain ⟨i, _, hi⟩ := List.mem_map.mp hmf.1
      have hlen := hmf.2
      simp only [Bool.and_eq_true, decide_eq_true_eq] at hlen
      refine ⟨?_, hlen.1, hlen.2⟩
      rw [← hi]
      exact jsTrim_idem _

theorem normalizeCustomExercises_stable (ce : List String)
    (h1 : ∀ s ∈ ce, jsTrim s = s) (h2 : ∀ s ∈ ce, 0 < s.length ∧ s.length ≤ 80)
    (h3 : ce.Nodup) :
    normalizeCustomExercises (some (jarr (jstrs ce))) = ce := by
  simp only [normalizeCustomExercises, asArr?_jarr, jstrs, List.map_map]
  have hmap : ce.map ((fun i => jsTrim (strOfTruthy i)) ∘ fun s => JVal.str s)
      = ce.map (fun s => s) := by
    refine List.map_congr_left fun s hs => ?_
    show jsTrim (strOfTruthy (.str s)) = s
    rw [strOfTruthy_str]
    exact h1 s hs
  rw [hmap, List.map_id']
  have hfilt : ce.filter (fun s => decide (0 < s.length) && decide (s.length ≤ 80)) = ce := by
    refine List.filter_eq_self.mpr fun a ha => ?_
    simp [(h2 a ha).1, (h2 a ha).2]
  rw [hfilt, dedupFirst_eq_self ce h3]

/-! ### Goals idempotence -/

theorem ratTruncZero_intCast (n : ℤ) : ratTruncZero ((n : ℚ)) = n := by
  unfold ratTruncZero
  rw [Rat.num_intCast, Rat.den_intCast]
  simp only [Nat.div_one]
  split <;> omega

theorem toPositiveInt_intCast_pos (n : ℤ) (hn : 0 < n) (fb : ℚ) :
    toPositiveInt (some (.num ((n : ℚ)))) fb = (n : ℚ) := by
  unfold toPositiveInt jsParseInt?
  simp only [ratTruncZero_intCast]
  rw [if_neg (by omega)]

theorem toPositiveInt_shape (x : Option JVal) (k : ℤ) (hk : 0 < k) (fb : ℚ)
    (hfb : fb = (k : ℚ)) : ∃ n : ℤ, 0 < n ∧ toPositiveInt x fb = (n : ℚ) := by
  unfold toPositiveInt
  rcases hj : jsParseInt? x with _ | m
  · exact ⟨k, hk, hfb⟩
  · by_cases hm : m ≤ 0
    · refine ⟨k, hk, ?_⟩
      show (if m ≤ 0 then fb else ((m : ℚ))) = (k : ℚ)
      rw [if_pos hm]
      exact hfb
    · refine ⟨m, by omega, ?_⟩
      show (if m ≤ 0 then fb else ((m : ℚ))) = (m : ℚ)
      rw [if_neg hm]

theorem rget_normalizeGoals_wg (v : Option JVal) : rget (normalizeGoals v) "weightGoal"
    = some (.num ((jsNumber? (rget (objSource v) "weightGoal")).getD 210)) := by
  rw [normalizeGoals]
  rfl

theorem rget_normalizeGoals_dc (v : Option JVal) : rget (normalizeGoals v) "dailyCalories"
    = some (.num (toPositiveInt (rget (objSource v) "dailyCalories") 1500)) := by
  rw [normalizeGoals]
  rfl

theorem rget_normalizeGoals_dp (v : Option JVal) : rget (normalizeGoals v) "dailyProtein"
    = some (.num (toPositiveInt (rget (objSource v) "dailyProtein") 150)) := by
  rw [normalizeGoals]
  rfl

theorem rget_normalizeGoals_ww (v : Option JVal) : rget (normalizeGoals v) "weeklyWorkouts"
    = some (.num (min 7 (max 1 (toPositiveInt (rget (objSource v) "weeklyWorkouts") 4)))) := by
  rw [normalizeGoals]
  rfl

theorem rget_normalizeGoals_ds (v : Option JVal) : rget (normalizeGoals v) "dailySteps"
    = some (.num (toPositiveInt (rget (objSource v) "dailySteps") 10000)) := by
  rw [normalizeGoals]
  rfl

theorem rget_normalizeGoals_sh (v : Option JVal) : rget (normalizeGoals v) "sleepHours"
    = some (.num ((jsNumber? (rget (objSource v) "sleepHours")).getD 7)) := by
  rw [normalizeGoals]
  rfl

theorem jsNumber?_getD_num (q c : ℚ) : (jsNumber? (some (.num q))).getD c = q := rfl

theorem normalizeGoals_idem (v : Option JVal) :
    normalizeGoals (some (jobj (normalizeGoals v))) = normalizeGoals v := by
  obtain ⟨n2, hn2, e2⟩ := toPositiveInt_shape (rget (objSource v) "dailyCalories")
    1500 (by norm_num) 1500 (by norm_num)
  obtain ⟨n3, hn3, e3⟩ := toPositiveInt_shape (rget (objSource v) "dailyProtein")
    150 (by norm_num) 150 (by norm_num)
  obtain ⟨n4, hn4, e4⟩ := toPositiveInt_shape (rget (objSource v) "weeklyWorkouts")
    4 (by norm_num) 4 (by norm_num)
  obtain ⟨n5, hn5, e5⟩ := toPositiveInt_shape (rget (objSource v) "dailySteps")
    10000 (by norm_num) 10000 (by norm_num)
  have hcast : min 7 (max 1 ((n4 : ℚ))) = ((min 7 (max 1 n4) : ℤ) : ℚ) := by
    push_cast
    rfl
  have hm1 : 1 ≤ min 7 (max 1 n4) := by omega
  have hm7 : min 7 (max 1 n4) ≤ 7 := by omega
  have hmax : max 1 ((min 7 (max 1 n4) : ℤ) : ℚ) = ((min 7 (max 1 n4) : ℤ) : ℚ) :=
    max_eq_right (by exact_mod_cast hm1)
  have hmin : min 7 ((min 7 (max 1 n4) : ℤ) : ℚ) = ((min 7 (max 1 n4) : ℤ) : ℚ) :=
    min_eq_right (by exact_mod_cast hm7)
  conv_lhs => rw [normalizeGoals]
  rw [objSource_jobj, rget_normalizeGoals_wg, rget_normalizeGoals_dc,
      rget_normalizeGoals_dp, rget_normalizeGoals_ww, rget_normalizeGoals_ds,
      rget_normalizeGoals_sh]
  rw [e2, e3, e4, e5, hcast]
  rw [jsNumber?_getD_num, jsNumber?_getD_num]
  rw [toPositiveInt_intCast_pos n2 hn2, toPositiveInt_intCast_pos n3 hn3,
      toPositiveInt_intCast_pos n5 hn5,
      toPositiveInt_intCast_pos (min 7 (max 1 n4)) (by omega), hmax, hmin]
  conv_rhs => rw [normalizeGoals]
  rw [e2, e3, e4, e5, hcast]

/-! ### The exported collections normalize exactly as the stored ones -/

theorem normWC_getArr (ctx : Ctx) (v : Option JVal) :
    normalizeWorkoutCollection ctx (jarr (getArr v))
      = normalizeWorkoutCollection ctx (v.getD .anil) := by
  rcases v with _ | x
  · rfl
  · show normalizeWorkoutCollection ctx (jarr ((asArr? x).getD [])) = _
    rcases hx : asArr? x with _ | xs
    · simp [normalizeWorkoutCollection, hx, jarr, asArr?]
    · simp [normalizeWorkoutCollection, hx]

theorem normNC_getArr (ctx : Ctx) (v : Option JVal) :
    normalizeNutritionCollection ctx (jarr (getArr v))
      = normalizeNutritionCollection ctx (v.getD .anil) := by
  rcases v with _ | x
  · rfl
  · show normalizeNutritionCollection ctx (jarr ((asArr? x).getD [])) = _
    rcases hx : asArr? x with _ | xs
    · simp [normalizeNutritionCollection, hx, jarr, asArr?]
    · simp [normalizeNutritionCollection, hx]

theorem normMC_getArr (ctx : Ctx) (v : Option JVal) :
    normalizeMetricsCollection ctx (jarr (getArr v))
      = normalizeMetricsCollection ctx (v.getD .anil) := by
  rcases v with _ | x
  · rfl
  · show normalizeMetricsCollection ctx (jarr ((asArr? x).getD [])) = _
    rcases hx : asArr? x with _ | xs
    · simp [normalizeMetricsCollection, hx, jarr, asArr?]
    · simp [normalizeMetricsCollection, hx]

/-! ### Settings idempotence and historical-data-flag irrelevance -/

theorem keys_rset_extends (r : Rec) (k : String) (v : JVal) (pre : List String)
    (h : ∃ ext, keysOf r = pre ++ ext) : ∃ ext, keysOf (rset r k v) = pre ++ ext := by
  obtain ⟨e, he⟩ := h
  by_cases hm : k ∈ keysOf r
  · refine ⟨e, ?_⟩
    rw [keys_rset, if_pos hm, he]
  · refine ⟨e ++ [k], ?_⟩
    rw [keys_rset, if_neg hm, he, List.append_assoc]

/-- The exact shape of a normalized settings object: a ten-field overwrite
of the spread `{...DEFAULTS.settings, ...source}`, with the three
onboarding fields determined as in the source. -/
theorem normalizeSettings_shape (ctx : Ctx) (v : Option JVal) (h : Bool) :
    ∃ (oc : Bool) (ca de : JVal),
      normalizeSettings ctx v h =
        rset (rset (rset (rset (rset (rset (rset (rset (rset (rset
          (rmerge defaultSettings (objSource v))
          "schemaVersion" (.num 2))
          "theme" (.str (normalizeThemeValue (rget (objSource v) "theme")
            (rget (objSource v) "darkMode"))))
          "darkMode" (.bool (normalizeThemeValue (rget (objSource v) "theme")
            (rget (objSource v) "darkMode") == "dark")))
          "workoutSplit" (jarr (jstrs (normalizeWorkoutSplit
            (rget (objSource v) "workoutSplit")))))
          "defaultFastingWindow" (jobj (normalizeFastingWindow
            (rget (objSource v) "defaultFastingWindow"))))
          "customExercises" (jarr (jstrs (normalizeCustomExercises
            (rget (objSource v) "customExercises")))))
          "profile" (jobj (normalizeProfile (rget (objSource v) "profile"))))
          "onboardingCompleted" (.bool oc))
          "onboardingCompletedAt" ca)
          "onboardingDeferredUntil" de ∧
      oc = (match rget (objSource v) "onboardingCompleted" with
            | some (.bool b) => some b
            | _ => none).getD h ∧
      ca = (if oc then
              match rget (objSource v) "onboardingCompletedAt" with
              | some (.str s) => if s ≠ "" then JVal.str s else JVal.str ctx.nowIso
              | _ => JVal.str ctx.nowIso
            else JVal.null) ∧
      de = (if oc then JVal.null
            else
              match rget (objSource v) "onboardingDeferredUntil" with
              | some (.str s) =>
                  if normalizeDateValue ctx (some (.str s)) none ≠ "" ∧
                      strGe (normalizeDateValue ctx (some (.str s)) none) ctx.today
                  then JVal.str (normalizeDateValue ctx (some (.str s)) none)
                  else JVal.null
              | _ => JVal.null) := by
  refine Exists.intro _ (Exists.intro _ (Exists.intro _
    (And.intro rfl (And.intro rfl (And.intro rfl rfl)))))

/-- With an explicit boolean `onboardingCompleted` in the source, the
`hasHistoricalData` option cannot influence normalization. -/
theorem normalizeSettings_flag_irrelevant (ctx : Ctx) (v : Option JVal) (b : Bool)
    (hb : rget (objSource v) "onboardingCompleted" = some (.bool b)) (h1 h2 : Bool) :
    normalizeSettings ctx v h1 = normalizeSettings ctx v h2 := by
  obtain ⟨oc1, ca1, de1, hX1, hoc1, hca1, hde1⟩ := normalizeSettings_shape ctx v h1
  obtain ⟨oc2, ca2, de2, hX2, hoc2, hca2, hde2⟩ := normalizeSettings_shape ctx v h2
  have e1 : oc1 = b := by rw [hoc1, hb]; rfl
  have e2 : oc2 = b := by rw [hoc2, hb]; rfl
  subst e1
  subst e2
  rw [hX1, hX2, hca1, hca2, hde1, hde2]

/-- Normalizing an already-normalized settings object is the identity,
whatever `hasHistoricalData` flags are used (the first pass always stores
an explicit completion boolean); the only caveat is stability of the
profile normalizer on the stored profile. -/
theorem normalizeSettings_idem (ctx : Ctx) (v : Option JVal) (h h' : Bool)
    (htoday : isFullDate ctx.today = true)
    (hprof : normalizeProfile (some (jobj (normalizeProfile (rget (objSource v) "profile"))))
      = normalizeProfile (rget (objSource v) "profile")) :
    normalizeSettings ctx (some (jobj (normalizeSettings ctx v h))) h'
      = normalizeSettings ctx v h := by
  obtain ⟨oc, ca, de, hX, hoc, hca, hde⟩ := normalizeSettings_shape ctx v h
  obtain ⟨X, hXv⟩ : ∃ X, normalizeSettings ctx v h = X := ⟨_, rfl⟩
  rw [hXv] at hX
  rw [hXv]
  have hg_de : rget X "onboardingDeferredUntil" = some de := by
    rw [hX, rget_rset_self]
  have hg_ca : rget X "onboardingCompletedAt" = some ca := by
    rw [hX, rget_rset_ne _ _ _ _ (by decide), rget_rset_self]
  have hg_oc : rget X "onboardingCompleted" = some (.bool oc) := by
    rw [hX, rget_rset_ne _ _ _ _ (by decide), rget_rset_ne _ _ _ _ (by decide),
        rget_rset_self]
  have hg_pr : rget X "profile"
      = some (jobj (normalizeProfile (rget (objSource v) "profile"))) := by
    rw [hX, rget_rset_ne _ _ _ _ (by decide), rget_rset_ne _ _ _ _ (by decide),
        rget_rset_ne _ _ _ _ (by decide), rget_rset_self]
  have hg_ce : rget X "customExercises"
      = some (jarr (jstrs (normalizeCustomExercises
          (rget (objSource v) "customExercises")))) := by
    rw [hX, rget_rset_ne _ _ _ _ (by decide), rget_rset_ne _ _ _ _ (by decide),
        rget_rset_ne _ _ _ _ (by decide), rget_rset_ne _ _ _ _ (by decide),
        rget_rset_self]
  have hg_fw : rget X "defaultFastingWindow"
      = some (jobj (normalizeFastingWindow
          (rget (objSource v) "defaultFastingWindow"))) := by
    rw [hX, rget_rset_ne _ _ _ _ (by decide), rget_rset_ne _ _ _ _ (by decide),
        rget_rset_ne _ _ _ _ (by decide), rget_rset_ne _ _ _ _ (by decide),
        rget_rset_ne _ _ _ _ (by decide), rget_rset_self]
  have hg_sp : rget X "workoutSplit"
      = some (jarr (jstrs (normalizeWorkoutSplit
          (rget (objSource v) "workoutSplit")))) := by
    rw [hX, rget_rset_ne _ _ _ _ (by decide), rget_rset_ne _ _ _ _ (by decide),
        rget_rset_ne _ _ _ _ (by decide), rget_rset_ne _ _ _ _ (by decide),
        rget_rset_ne _ _ _ _ (by decide), rget_rset_ne _ _ _ _ (by decide),
        rget_rset_self]
  have hg_dm : rget X "darkMode"
      = some (.bool (normalizeThemeValue (rget (objSource v) "theme")
          (rget (objSource v) "darkMode") == "dark")) := by
    rw [hX, rget_rset_ne _ _ _ _ (by decide), rget_rset_ne _ _ _ _ (by decide),
        rget_rset_ne _ _ _ _ (by decide), rget_rset_ne _ _ _ _ (by decide),
        rget_rset_ne _ _ _ _ (by decide), rget_rset_ne _ _ _ _ (by decide),
        rget_rset_ne _ _ _ _ (by decide), rget_rset_self]
  have hg_th : rget X "theme"
      = some (.str (normalizeThemeValue (rget (objSource v) "theme")
          (rget (objSource v) "darkMode"))) := by
    rw [hX, rget_rset_ne _ _ _ _ (by decide), rget_rset_ne _ _ _ _ (by decide),
        rget_rset_ne _ _ _ _ (by decide), rget_rset_ne _ _ _ _ (by decide),
        rget_rset_ne _ _ _ _ (by decide), rget_rset_ne _ _ _ _ (by decide),
        rget_rset_ne _ _ _ _ (by decide), rget_rset_ne _ _ _ _ (by decide),
        rget_rset_self]
  have hg_sv : rget X "schemaVersion" = some (.num 2) := by
    rw [hX, rget_rset_ne _ _ _ _ (by decide), rget_rset_ne _ _ _ _ (by decide),
        rget_rset_ne _ _ _ _ (by decide), rget_rset_ne _ _ _ _ (by decide),
        rget_rset_ne _ _ _ _ (by decide), rget_rset_ne _ _ _ _ (by decide),
        rget_rset_ne _ _ _ _ (by decide), rget_rset_ne _ _ _ _ (by decide),
        rget_rset_ne _ _ _ _ (by decide), rget_rset_self]
  have hnodup : (keysOf X).Nodup := by
    rw [hX]
    apply keys_rset_nodup
    apply keys_rset_nodup
    apply keys_rset_nodup
    apply keys_rset_nodup
    apply keys_rset_nodup
    apply keys_rset_nodup
    apply keys_rset_nodup
    apply keys_rset_nodup
    apply keys_rset_nodup
    apply keys_rset_nodup
    exact keys_rmerge_nodup _ _ (by decide)
  have hext2 : ∃ ext, keysOf X = keysOf defaultSettings ++ ext := by
    rw [hX]
    apply keys_rset_extends
    apply keys_rset_extends
    apply keys_rset_extends
    apply keys_rset_extends
    apply keys_rset_extends
    apply keys_rset_extends
    apply keys_rset_extends
    apply keys_rset_extends
    apply keys_rset_extends
    apply keys_rset_extends
    exact keys_rmerge defaultSettings (objSource v)
  obtain ⟨ext, hext⟩ := hext2
  have hmerge : rmerge defaultSettings X = X :=
    rmerge_eq_self defaultSettings X ext hext hnodup
  obtain ⟨oc2, ca2, de2, hY, hoc2, hca2, hde2⟩ :=
    normalizeSettings_shape ctx (some (jobj X)) h'
  rw [objSource_jobj] at hY hoc2 hca2 hde2
  have hoc3 : oc2 = oc := by rw [hoc2, hg_oc]; rfl
  rw [hg_th, hg_dm, hg_sp, hg_fw, hg_ce, hg_pr, hoc3] at hY
  have hth2 := normalizeThemeValue_cases (rget (objSource v) "theme")
    (rget (objSource v) "darkMode")
  rw [normalizeThemeValue_fix _ hth2 _] at hY
  obtain ⟨hsp1, hsp2, hsp3⟩ := normalizeWorkoutSplit_props (rget (objSource v) "workoutSplit")
  rw [normalizeWorkoutSplit_stable _ hsp1 hsp2 hsp3] at hY
  obtain ⟨ts, te, hfwe, hts1, hts2, hte1, hte2⟩ :=
    normalizeFastingWindow_shape (rget (objSource v) "defaultFastingWindow")
  rw [hfwe] at hg_fw hY
  rw [normalizeFastingWindow_stable ts te hts1 hts2 hte1 hte2] at hY
  obtain ⟨hce1, hce2⟩ := normalizeCustomExercises_props (rget (objSource v) "customExercises")
  rw [normalizeCustomExercises_stable _ (fun s hs => (hce1 s hs).1)
      (fun s hs => ⟨(hce1 s hs).2.1, (hce1 s hs).2.2⟩) hce2] at hY
  rw [hprof] at hY
  rw [hg_ca] at hca2
  rw [hg_de] at hde2
  rw [hoc3] at hca2 hde2
  have hcade : ca2 = ca ∧ de2 = de := by
    cases oc with
    | true =>
        have hde3 : de = JVal.null := by rw [hde, if_pos rfl]
        have hca3 : ∃ w, ca = JVal.str w ∧ (w ≠ "" ∨ w = ctx.nowIso) := by
          rcases hz : rget (objSource v) "onboardingCompletedAt" with _ | z
          · rw [hz] at hca
            exact ⟨ctx.nowIso, by rw [hca, if_pos rfl], Or.inr rfl⟩
          · cases z with
            | str s =>
                rw [hz] at hca
                by_cases hs : s = ""
                · refine ⟨ctx.nowIso, ?_, Or.inr rfl⟩
                  rw [hca, if_pos rfl]
                  show (if s ≠ "" then JVal.str s else JVal.str ctx.nowIso) = _
                  rw [if_neg (by simpa using hs)]
                · refine ⟨s, ?_, Or.inl hs⟩
                  rw [hca, if_pos rfl]
                  show (if s ≠ "" then JVal.str s else JVal.str ctx.nowIso) = _
                  rw [if_pos hs]
            | null =>
                rw [hz] at hca
                exact ⟨ctx.nowIso, by rw [hca, if_pos rfl], Or.inr rfl⟩
            | bool b =>
                rw [hz] at hca
                exact ⟨ctx.nowIso, by rw [hca, if_pos rfl], Or.inr rfl⟩
            | num q =>
                rw [hz] at hca
                exact ⟨ctx.nowIso, by rw [hca, if_pos rfl], Or.inr rfl⟩
            | anil =>
                rw [hz] at hca
                exact ⟨ctx.nowIso, by rw [hca, if_pos rfl], Or.inr rfl⟩
            | acons a t =>
                rw [hz] at hca
                exact ⟨ctx.nowIso, by rw [hca, if_pos rfl], Or.inr rfl⟩
            | onil =>
                rw [hz] at hca
                exact ⟨ctx.nowIso, by rw [hca, if_pos rfl], Or.inr rfl⟩
            | ocons k a t =>
                rw [hz] at hca
                exact ⟨ctx.nowIso, by rw [hca, if_pos rfl], Or.inr rfl⟩
        obtain ⟨w, hw, hwd⟩ := hca3
        constructor
        · rw [hca2, if_pos rfl, hw]
          by_cases hwe : w = ""
          · show (if w ≠ "" then JVal.str w else JVal.str ctx.nowIso) = JVal.str w
            rw [if_neg (by simpa using hwe)]
            rcases hwd with hne | hni
            · exact absurd hwe hne
            · rw [hni]
          · show (if w ≠ "" then JVal.str w else JVal.str ctx.nowIso) = JVal.str w
            rw [if_pos hwe]
        · rw [hde2, if_pos rfl, hde3]
    | false =>
        have hca3 : ca = JVal.null := by
          rw [hca, if_neg (by simp)]
        have hca4 : ca2 = ca := by
          rw [hca2, if_neg (by simp), hca3]
        refine ⟨hca4, ?_⟩
        have hde3 : de = JVal.null ∨
            ∃ nd, de = JVal.str nd ∧ normalizeDateValue ctx (some (.str nd)) none = nd ∧
              (nd ≠ "" ∧ strGe nd ctx.today = true) := by
          rcases hz : rget (objSource v) "onboardingDeferredUntil" with _ | z
          · rw [hz] at hde
            exact Or.inl (by rw [hde, if_neg (by simp)])
          · cases z with
            | str s =>
                rw [hz] at hde
                obtain ⟨nd, hnd⟩ : ∃ nd, normalizeDateValue ctx (some (.str s)) none = nd :=
                  ⟨_, rfl⟩
                have hst := normalizeDateValue_idem ctx (some (.str s)) htoday
                rw [hnd] at hst
                rw [if_neg (by simp)] at hde
                have hde4 : de = if nd ≠ "" ∧ strGe nd ctx.today = true
                    then JVal.str nd else JVal.null := by
                  rw [hde]
                  show (if normalizeDateValue ctx (some (.str s)) none ≠ "" ∧
                      strGe (normalizeDateValue ctx (some (.str s)) none) ctx.today = true
                    then JVal.str (normalizeDateValue ctx (some (.str s)) none)
                    else JVal.null) = _
                  rw [hnd]
                by_cases hcond : nd ≠ "" ∧ strGe nd ctx.today = true
                · refine Or.inr ⟨nd, ?_, hst, hcond⟩
                  rw [hde4, if_pos hcond]
                · exact Or.inl (by rw [hde4, if_neg hcond])
            | null =>
                rw [hz] at hde
                exact Or.inl (by rw [hde, if_neg (by simp)])
            | bool b =>
                rw [hz] at hde
                exact Or.inl (by rw [hde, if_neg (by simp)])
            | num q =>
                rw [hz] at hde
                exact Or.inl (by rw [hde, if_neg (by simp)])
            | anil =>
                rw [hz] at hde
                exact Or.inl (by rw [hde, if_neg (by simp)])
            | acons a t =>
                rw [hz] at hde
                exact Or.inl (by rw [hde, if_neg (by simp)])
            | onil =>
                rw [hz] at hde
                exact Or.inl (by rw [hde, if_neg (by simp)])
            | ocons k a t =>
                rw [hz] at hde
                exact Or.inl (by rw [hde, if_neg (by simp)])
        rcases hde3 with hnull | ⟨nd, hstr, hst, hcond⟩
        · rw [hde2, if_neg (by simp), hnull]
        · rw [hde2, if_neg (by simp), hstr]
          show (if normalizeDateValue ctx (some (.str nd)) none ≠ "" ∧
              strGe (normalizeDateValue ctx (some (.str nd)) none) ctx.today = true
            then JVal.str (normalizeDateValue ctx (some (.str nd)) none)
            else JVal.null) = JVal.str nd
          rw [hst, if_pos hcond]
  obtain ⟨hca5, hde5⟩ := hcade
  rw [hca5, hde5] at hY
  rw [hY, hmerge, rset_self _ _ _ hg_sv, rset_self _ _ _ hg_th, rset_self _ _ _ hg_dm,
      rset_self _ _ _ hg_sp, rset_self _ _ _ hg_fw, rset_self _ _ _ hg_ce,
      rset_self _ _ _ hg_pr, rset_self _ _ _ hg_oc, rset_self _ _ _ hg_ca,
      rset_self _ _ _ hg_de]

/-! ## Claims -/

def emptyLS : LS := ⟨none, none, none, none, none, none⟩

/-- C8: for every collection and every id not present in it,
`update(key, id, updates)` returns the failure signal `null` without
throwing (the model is total), and the stored collection is unchanged. -/
theorem update_unknown_id_is_noop (items : List JVal) (id : String)
    (updates : Rec) (now : String)
    (h : ∀ it ∈ items, vget it "id" ≠ some (.str id)) :
    updateItem items id updates now = (none, items) := by
  induction items with
  | nil => rfl
  | cons it rest ih =>
      have h1 : (vget it "id" == some (JVal.str id)) = false := by
        simpa using h it (List.mem_cons_self ..)
      simp only [updateItem, h1, Bool.false_eq_true, if_false]
      rw [ih (fun x hx => h x (List.mem_cons_of_mem _ hx))]

/-- Witness for C8: updating id `"b"` in a collection holding only id
`"a"` fails and changes nothing. -/
theorem update_unknown_id_is_noop_witness :
    updateItem [jobj [("id", JVal.str "a")]] "b" [("weight", JVal.num 1)] "t"
      = (none, [jobj [("id", JVal.str "a")]]) :=
  update_unknown_id_is_noop _ _ _ _ (by decide)

/-- C9: after a successful pull that found a remote document, each of the
five local keys holds exactly the serialized remote field when that field
is truthy, and is cleared otherwise — in particular every key absent from
the remote document ends up cleared, never preserved from the pre-pull
local state. -/
theorem pull_found_replaces_wholesale (userId : String) (d : Doc) (s0 : LS) :
    ((syncFromCloud userId (.found d) s0).1).workouts = loadField d.workouts ∧
    ((syncFromCloud userId (.found d) s0).1).nutrition = loadField d.nutrition ∧
    ((syncFromCloud userId (.found d) s0).1).metrics = loadField d.metrics ∧
    ((syncFromCloud userId (.found d) s0).1).goals = loadField d.goals ∧
    ((syncFromCloud userId (.found d) s0).1).settings = loadField d.settings ∧
    (d.metrics = none → ((syncFromCloud userId (.found d) s0).1).metrics = none) := by
  refine ⟨rfl, rfl, rfl, rfl, rfl, ?_⟩
  intro h
  simp [syncFromCloud, loadField, h]

/-- Witness for C9: a remote document carrying only workouts leaves the
other four keys cleared even though the device had local metrics. -/
theorem pull_found_replaces_wholesale_witness :
    ((syncFromCloud "u"
        (.found ⟨some (jarr [jobj [("id", JVal.str "w1")]]), none, none, none, none⟩)
        ⟨none, none, some "[1]", none, none, some "u"⟩).1).metrics = none :=
  (pull_found_replaces_wholesale "u" _ _).2.2.2.2.2 rfl

/-- C2: pulling while a cached owner id differs from the signed-in account
wipes all five local collections before the remote document is fetched;
the wipe is never undone from the pre-pull locals: a failed or empty fetch
leaves all five cleared, and a successful fetch fills each key only from
the remote document. -/
theorem account_switch_wipes_before_fetch (userId o : String) (s0 : LS)
    (how : s0.owner = some o) (hne : o ≠ "") (hneu : o ≠ userId) :
    ((preFetchState userId s0).workouts = none ∧
     (preFetchState userId s0).nutrition = none ∧
     (preFetchState userId s0).metrics = none ∧
     (preFetchState userId s0).goals = none ∧
     (preFetchState userId s0).settings = none) ∧
    (((syncFromCloud userId .failure s0).1).workouts = none ∧
     ((syncFromCloud userId .failure s0).1).nutrition = none ∧
     ((syncFromCloud userId .failure s0).1).metrics = none ∧
     ((syncFromCloud userId .failure s0).1).goals = none ∧
     ((syncFromCloud userId .failure s0).1).settings = none) ∧
    (((syncFromCloud userId .missing s0).1).workouts = none ∧
     ((syncFromCloud userId .missing s0).1).nutrition = none ∧
     ((syncFromCloud userId .missing s0).1).metrics = none ∧
     ((syncFromCloud userId .missing s0).1).goals = none ∧
     ((syncFromCloud userId .missing s0).1).settings = none) ∧
    (∀ d : Doc,
      ((syncFromCloud userId (.found d) s0).1).workouts = loadField d.workouts ∧
      ((syncFromCloud userId (.found d) s0).1).settings = loadField d.settings) := by
  have hd : isDifferentUser userId s0 = true := by
    simp [isDifferentUser, how, hne, hneu]
  refine ⟨?_, ?_, ?_, fun d => ⟨rfl, rfl⟩⟩ <;>
    simp [syncFromCloud, preFetchState, pullSnapshot, hd, clearAllLocalData]

/-- Witness for C2: owner `"alice"`, account `"bob"`, fetch fails — the
workouts key that held data beforehand is cleared at fetch time and stays
cleared. -/
theorem account_switch_wipes_before_fetch_witness :
    (preFetchState "bob" ⟨some "[1]", none, none, none, none, some "alice"⟩).workouts = none ∧
    ((syncFromCloud "bob" .failure
        ⟨some "[1]", none, none, none, none, some "alice"⟩).1).workouts = none := by
  have h := account_switch_wipes_before_fetch "bob" "alice"
    ⟨some "[1]", none, none, none, none, some "alice"⟩ rfl (by decide) (by decide)
  exact ⟨h.1.1, h.2.1.1⟩

/-- Counterexample to C1 as stated: with no cached owner and an empty
local store the snapshot is taken (and is empty), the fetch fails, and the
owner marker is NOT set to the signed-in account — the guard
`Object.keys(localSnapshot).length > 0` also skips the owner write. -/
theorem pull_failure_empty_snapshot_owner_unset :
    pullSnapshot "alice" emptyLS = some ⟨none, none, none, none, none⟩ ∧
    (syncFromCloud "alice" .failure emptyLS).1.owner ≠ some "alice" := by
  constructor
  · rfl
  · decide

/-- C1 (amended): when the pre-pull snapshot is taken (no account switch)
and the pull fails, the five data keys are restored byte-for-byte to their
pre-pull contents; the owner marker is set to the signed-in account
whenever the snapshot held at least one key, and is left unchanged when
the snapshot was empty (in which case nothing was lost either). -/
theorem pull_failure_restores_snapshot (userId : String) (s0 : LS)
    (h : isDifferentUser userId s0 = false) :
    ((syncFromCloud userId .failure s0).1.workouts = s0.workouts ∧
     (syncFromCloud userId .failure s0).1.nutrition = s0.nutrition ∧
     (syncFromCloud userId .failure s0).1.metrics = s0.metrics ∧
     (syncFromCloud userId .failure s0).1.goals = s0.goals ∧
     (syncFromCloud userId .failure s0).1.settings = s0.settings) ∧
    (snapNonempty (getLocalSnapshot s0) = true →
      (syncFromCloud userId .failure s0).1.owner = some userId) ∧
    (snapNonempty (getLocalSnapshot s0) = false →
      (syncFromCloud userId .failure s0).1.owner = s0.owner) := by
  cases hs : snapNonempty (getLocalSnapshot s0)
  · simp [syncFromCloud, pullSnapshot, preFetchState, h, hs]
  · simp only [syncFromCloud, pullSnapshot, preFetchState, h, hs, Bool.false_eq_true,
      if_false, if_true]
    simp [restoreLocalSnapshot, getLocalSnapshot]

/-- Witness for C1: same owner, non-empty store, failed fetch — data kept
byte-for-byte and owner marker set. -/
theorem pull_failure_restores_snapshot_witness :
    (syncFromCloud "alice" .failure
        ⟨some "[\"w\"]", none, none, none, none, some "alice"⟩).1.workouts
      = some "[\"w\"]" ∧
    (syncFromCloud "alice" .failure
        ⟨some "[\"w\"]", none, none, none, none, some "alice"⟩).1.owner
      = some "alice" := by
  have h := pull_failure_restores_snapshot "alice"
    ⟨some "[\"w\"]", none, none, none, none, some "alice"⟩ (by decide)
  exact ⟨h.1.1, h.2.1 (by decide)⟩

/-- C6: `migrate()` is never fatal on forward schema skew — with a stored
version newer than the build it still re-normalizes all five collections
and singletons, re-persists the current schema version, and reports the
skew only as a warning. -/
theorem migrate_tolerates_newer_schema (ctx : Ctx) (s : Store)
    (h : SCHEMA_VERSION < detectSchemaVersion s) :
    (migrate ctx s).1 = normalizeAllData ctx s ∧
    (migrate ctx s).1.schemaVer = some "2" ∧
    (migrate ctx s).2 ≠ [] := by
  refine ⟨rfl, rfl, ?_⟩
  simp [migrate, h]

/-- Witness for C6: stored version 99 — normalization still runs and the
version is re-persisted at 2, with a warning emitted. -/
theorem migrate_tolerates_newer_schema_witness :
    (migrate ⟨"2026-10-12", "T0", fun _ => "g"⟩
        { emptyStore with schemaVer := some "99" }).1.schemaVer = some "2" :=
  (migrate_tolerates_newer_schema _ _ (by decide)).2.1

/-- Counterexample to C4 as stated: a caller-supplied empty-string id is
"supplied" but falsy, and `item.id = item.id || generateId()` replaces it
with a fresh id, so the stored id differs from the supplied one. -/
theorem add_overwrites_falsy_id :
    rget (addItem [] [("id", JVal.str "")] "gen-0" "2026-10-12T00:00:00.000Z").2 "id"
      = some (JVal.str "gen-0") ∧ ("gen-0" : String) ≠ "" := by
  constructor
  · rfl
  · decide

/-- C4 (amended): `add` keeps a caller-supplied `id`/`createdAt` exactly
when the supplied value is truthy, and assigns the generated id / current
timestamp exactly when the field is absent or falsy (JS `||`); the record
is appended to the collection. -/
theorem add_preserves_truthy_identity (items : List JVal) (item : Rec)
    (genned now : String) :
    (truthyO (rget item "id") = true →
      rget (addItem items item genned now).2 "id" = rget item "id") ∧
    (truthyO (rget item "id") = false →
      rget (addItem items item genned now).2 "id" = some (.str genned)) ∧
    (truthyO (rget item "createdAt") = true →
      rget (addItem items item genned now).2 "createdAt" = rget item "createdAt") ∧
    (truthyO (rget item "createdAt") = false →
      rget (addItem items item genned now).2 "createdAt" = some (.str now)) ∧
    (addItem items item genned now).1 = items ++ [jobj (addItem items item genned now).2] := by
  have hid : rget (addItem items item genned now).2 "id" =
      rget (rset item "id"
        (match rget item "id" with
         | some v => if truthy v then v else .str genned
         | none => .str genned)) "id" := by
    simp only [addItem]
    rw [rget_rset_ne _ _ _ _ (by decide)]
  have hca : rget (addItem items item genned now).2 "createdAt" =
      some (match rget item "createdAt" with
            | some v => if truthy v then v else .str now
            | none => .str now) := by
    simp only [addItem]
    rw [rget_rset_self, rget_rset_ne _ _ _ _ (by decide)]
  refine ⟨?_, ?_, ?_, ?_, rfl⟩
  · intro ht
    rw [hid, rget_rset_self]
    cases hr : rget item "id" with
    | none => rw [hr] at ht; simp [truthyO] at ht
    | some v =>
        rw [hr] at ht
        simp only [truthyO] at ht
        simp [ht]
  · intro ht
    rw [hid, rget_rset_self]
    cases hr : rget item "id" with
    | none => rfl
    | some v =>
        rw [hr] at ht
        simp only [truthyO] at ht
        simp [ht]
  · intro ht
    rw [hca]
    cases hr : rget item "createdAt" with
    | none => rw [hr] at ht; simp [truthyO] at ht
    | some v =>
        rw [hr] at ht
        simp only [truthyO] at ht
        simp [ht]
  · intro ht
    rw [hca]
    cases hr : rget item "createdAt" with
    | none => rfl
    | some v =>
        rw [hr] at ht
        simp only [truthyO] at ht
        simp [ht]

/-- Witness for C4: a record arriving from the remote store with id
`"r-1"` and createdAt `"2020-01-01T00:00:00.000Z"` keeps both. -/
theorem add_preserves_truthy_identity_witness :
    rget (addItem [] [("id", JVal.str "r-1"),
        ("createdAt", JVal.str "2020-01-01T00:00:00.000Z")] "gen" "now").2 "id"
      = some (JVal.str "r-1") := by
  have h := add_preserves_truthy_identity []
    [("id", JVal.str "r-1"), ("createdAt", JVal.str "2020-01-01T00:00:00.000Z")] "gen" "now"
  rw [h.1 (by decide)]
  rfl

/-- C10: every settings object produced by `normalizeSettings` (hence by
`settings.get` and persisted by `settings.set`, as both return exactly such
an object) has `schemaVersion` equal to the build schema version 2 and
`darkMode` agreeing with `theme === "dark"`. -/
theorem settings_schema_and_darkmode (ctx : Ctx) (v : Option JVal) (h : Bool) :
    rget (normalizeSettings ctx v h) "schemaVersion" = some (.num 2) ∧
    ∃ t : String, rget (normalizeSettings ctx v h) "theme" = some (.str t) ∧
      rget (normalizeSettings ctx v h) "darkMode" = some (.bool (t == "dark")) := by
  refine ⟨?_, normalizeThemeValue
    (rget (objSource v) "theme") (rget (objSource v) "darkMode"), ?_, ?_⟩ <;>
    simp only [normalizeSettings] <;>
    rw [rget_rset_ne _ _ _ _ (by decide), rget_rset_ne _ _ _ _ (by decide),
        rget_rset_ne _ _ _ _ (by decide), rget_rset_ne _ _ _ _ (by decide),
        rget_rset_ne _ _ _ _ (by decide), rget_rset_ne _ _ _ _ (by decide)]
  · rw [rget_rset_ne _ _ _ _ (by decide), rget_rset_ne _ _ _ _ (by decide),
        rget_rset_ne _ _ _ _ (by decide), rget_rset_self]
  · rw [rget_rset_ne _ _ _ _ (by decide), rget_rset_ne _ _ _ _ (by decide),
        rget_rset_self]
  · rw [rget_rset_ne _ _ _ _ (by decide), rget_rset_self]

/-- C7: after `onboarding.defer(n)` on day `D` with `n ≥ 1` while
onboarding is not completed, `shouldPrompt()` evaluated on day `T` is
false exactly when `T` is on or before the deferred date `D` plus `n`
calendar days — false through the deferred date, true once it has passed.
(Years are bounded by 9999 so the `YYYY-MM-DD` rendering is faithful.) -/
theorem onboarding_defer_gates_prompt
    (s : Store) (D T : CivDate) (n : Nat) (now1 now2 : String) (g1 g2 : Nat → String)
    (hD : validDate D) (hT : validDate T) (hn : 1 ≤ n)
    (hyD : (addDays n D).y ≤ 9999) (hyT : T.y ≤ 9999)
    (hnc : rget (settingsGet ⟨fmtDate D, now1, g1⟩ s) "onboardingCompleted"
             = some (.bool false)) :
    (shouldPrompt ⟨fmtDate T, now2, g2⟩ (onboardingDefer D now1 g1 n s) = false)
      ↔ dateLe T (addDays n D) := by
  have heff : max 1 (if n = 0 then 7 else n) = n := by
    rw [if_neg (by omega)]
    exact Nat.max_eq_right hn
  set ctx1 : Ctx := ⟨fmtDate D, now1, g1⟩ with hctx1
  set ctx2 : Ctx := ⟨fmtDate T, now2, g2⟩ with hctx2
  set dd : CivDate := addDays n D with hdd
  have hdef : onboardingDefer D now1 g1 n s
      = settingsSet ctx1 [("onboardingDeferredUntil", .str (fmtDate dd))] s := by
    simp only [onboardingDefer, heff, hdd, hctx1]
  have hvd : validDate dd := by rw [hdd]; exact addDays_valid n D hD
  have hyd : dd.y < 10000 := by omega
  have hyD' : D.y < 10000 := by
    have hle := addDays_y_le n D
    rw [← hdd] at hle
    omega
  have hyT' : T.y < 10000 := by omega
  have hkey : dateKey D ≤ dateKey dd := by rw [hdd]; exact addDays_key_le n D hD
  obtain ⟨hm1, hm2⟩ := settingsSetMerged_deferral ctx1 (fmtDate dd) s hnc
  obtain ⟨hX1, hX2⟩ := normalizeSettings_not_completed ctx1
    (settingsSetMerged ctx1 [("onboardingDeferredUntil", .str (fmtDate dd))] s) false
    (fmtDate dd) hm1 hm2
  rw [normalizeDateValue_fmt] at hX2
  have hge1 : strGe (fmtDate dd) ctx1.today = true := by
    show strGe (fmtDate dd) (fmtDate D) = true
    exact (strGe_fmt dd D hvd hD hyd hyD').mpr hkey
  rw [if_pos ⟨fmtDate_ne_empty dd, hge1⟩] at hX2
  obtain ⟨hY1, hY2⟩ := normalizeSettings_not_completed ctx2
    (normalizeSettings ctx1
      (some (jobj (settingsSetMerged ctx1
        [("onboardingDeferredUntil", .str (fmtDate dd))] s))) false)
    false (fmtDate dd) hX1 hX2
  rw [normalizeDateValue_fmt] at hY2
  rw [hdef]
  have hh1 : rget (settingsGet ctx2 (settingsSet ctx1
      [("onboardingDeferredUntil", .str (fmtDate dd))] s)) "onboardingCompleted"
      = some (.bool false) := by
    rw [settingsGet_settingsSet]
    exact hY1
  by_cases hge2 : strGe (fmtDate dd) ctx2.today = true
  · rw [if_pos ⟨fmtDate_ne_empty dd, hge2⟩] at hY2
    have hh2 : rget (settingsGet ctx2 (settingsSet ctx1
        [("onboardingDeferredUntil", .str (fmtDate dd))] s)) "onboardingDeferredUntil"
        = some (.str (fmtDate dd)) := by
      rw [settingsGet_settingsSet]
      exact hY2
    rw [shouldPrompt_of_deferred_kept ctx2 _ (fmtDate dd) hh1 hh2 (fmtDate_ne_empty dd),
        hge2]
    exact iff_of_true rfl ((strGe_fmt dd T hvd hT hyd hyT').mp hge2)
  · rw [if_neg (fun hp => hge2 hp.2)] at hY2
    have hh2 : rget (settingsGet ctx2 (settingsSet ctx1
        [("onboardingDeferredUntil", .str (fmtDate dd))] s)) "onboardingDeferredUntil"
        = some .null := by
      rw [settingsGet_settingsSet]
      exact hY2
    rw [shouldPrompt_of_deferred_null ctx2 _ hh1 hh2]
    exact iff_of_false (by simp) (fun hle => hge2 ((strGe_fmt dd T hvd hT hyd hyT').mpr hle))

/-- Witness for C7: deferring 3 days on 2026-10-11 suppresses the prompt
on 2026-10-12 (on or before the deferred date 2026-10-14). -/
theorem onboarding_defer_gates_prompt_witness :
    (shouldPrompt ⟨fmtDate ⟨2026, 10, 12⟩, "t2", fun _ => "g"⟩
        (onboardingDefer ⟨2026, 10, 11⟩ "t1" (fun _ => "g") 3 emptyStore) = false)
      ↔ dateLe ⟨2026, 10, 12⟩ (addDays 3 ⟨2026, 10, 11⟩) :=
  onboarding_defer_gates_prompt emptyStore ⟨2026, 10, 11⟩ ⟨2026, 10, 12⟩ 3 "t1" "t2"
    (fun _ => "g") (fun _ => "g") (by decide) (by decide) (by decide) (by decide)
    (by decide) (by decide)

/-- A concrete ambient context used for evaluated counterexamples. -/
def cbCtx : Ctx := ⟨"2026-10-12", "2026-10-12T00:00:00.000Z", fun n => "gen-" ++ Nat.repr n⟩

/-- A metrics collection with one record that carries a date but no
`weight` field. -/
def cbMetricsRaw : JVal := jarr [jobj [("date", JVal.str "2026-01-01")]]

/-- C3 (the code violates it): normalization is NOT idempotent.  A metrics
record without a `weight` field normalizes to `weight: null` on the first
pass (`Number(undefined)` is NaN), but the second pass turns that `null`
into `0`, because JS `Number(null)` is `0` and `toNumber` has no null
guard.  The same happens to every nullable numeric field in the workouts,
nutrition and metrics normalizers; ids and createdAt are indeed never
regenerated, and the goals/settings normalizers do not use `toNumber` on
nullable output fields. -/
theorem normalize_metrics_not_idempotent :
    rget ((normalizeMetricsCollection cbCtx cbMetricsRaw).headD []) "weight"
      = some JVal.null ∧
    rget ((normalizeMetricsCollection cbCtx
        (jarr ((normalizeMetricsCollection cbCtx cbMetricsRaw).map jobj))).headD []) "weight"
      = some (JVal.num 0) ∧
    normalizeMetricsCollection cbCtx
        (jarr ((normalizeMetricsCollection cbCtx cbMetricsRaw).map jobj))
      ≠ normalizeMetricsCollection cbCtx cbMetricsRaw := by
  refine ⟨?_, ?_, ?_⟩ <;> decide

def c5ctx : Ctx := ⟨"2026-10-12", "2026-10-12T08:00:00.000Z", fun n => "id-" ++ Nat.repr n⟩

def c5store : Store :=
  { emptyStore with workouts := some (jarr [jobj [("id", JVal.str "w1"),
      ("createdAt", JVal.str "2026-01-02T00:00:00.000Z"),
      ("date", JVal.str "2026-01-02")]]) }

/-- C5 counterexample: a store holding one workout and no settings object.
The direct Migration Gate infers `onboardingCompleted: true` from the
historical records, but the export bakes in the `settings.get` view
(computed with `hasHistoricalData: false`), so the
export-clear-import round trip comes back with an explicit
`onboardingCompleted: false` — the round trip is not equivalent to the
post-normalization original. -/
theorem export_import_roundtrip_diverges :
    vgetO ((importAll c5ctx (exportAll c5ctx c5store) (clearAll c5store)).settings)
        "onboardingCompleted" = some (JVal.bool false) ∧
    vgetO ((migrate c5ctx c5store).1.settings) "onboardingCompleted"
        = some (JVal.bool true) ∧
    importAll c5ctx (exportAll c5ctx c5store) (clearAll c5store)
        ≠ (migrate c5ctx c5store).1 := by
  decide

/-- C5 (amended): exporting all data, clearing the store and importing the
export back yields byte-for-byte the store that direct migration produces,
provided (a) the stored settings carry an explicit boolean
`onboardingCompleted` (otherwise the export freezes the
`hasHistoricalData: false` inference of `settings.get`), (b) the profile
normalizer is stable on the stored profile (it is, except when truncating
a trimmed display name to 60 characters re-exposes trailing whitespace),
and (c) the ambient `getToday()` value is a well-formed `YYYY-MM-DD`
string.  `importAll` accepts any subset of the five keys, writes them
verbatim and unconditionally re-runs the Migration Gate. -/
theorem export_import_roundtrip (ctx : Ctx) (s : Store) (b : Bool)
    (hflag : rget (objSource (some (s.settings.getD (jobj [])))) "onboardingCompleted"
      = some (JVal.bool b))
    (hprof : normalizeProfile (some (jobj (normalizeProfile
        (rget (objSource (some (s.settings.getD (jobj [])))) "profile"))))
      = normalizeProfile (rget (objSource (some (s.settings.getD (jobj [])))) "profile"))
    (htoday : isFullDate ctx.today = true) :
    importAll ctx (exportAll ctx s) (clearAll s) = (migrate ctx s).1 := by
  show normalizeAllData ctx
      ⟨some (jarr (getArr s.workouts)), some (jarr (getArr s.nutrition)),
       some (jarr (getArr s.metrics)), some (jobj (goalsGet s)),
       some (jobj (settingsGet ctx s)), none⟩
    = normalizeAllData ctx s
  have hw := normWC_getArr ctx s.workouts
  have hn := normNC_getArr ctx s.nutrition
  have hm := normMC_getArr ctx s.metrics
  simp only [normalizeAllData, Option.getD_some]
  simp only [hw, hn, hm]
  rw [show goalsGet s = normalizeGoals (some (s.goals.getD (jobj []))) from rfl]
  rw [normalizeGoals_idem]
  rw [show settingsGet ctx s
      = normalizeSettings ctx (some (s.settings.getD (jobj []))) false from rfl]
  rw [normalizeSettings_idem ctx (some (s.settings.getD (jobj []))) false _ htoday hprof]
  rw [normalizeSettings_flag_irrelevant ctx (some (s.settings.getD (jobj []))) b hflag false _]

def c5wStore : Store :=
  { emptyStore with
      workouts := some (jarr [jobj [("id", JVal.str "w9")]]),
      settings := some (jobj [("onboardingCompleted", JVal.bool true)]) }

/-- C5 witness: the amended round-trip equality holds on a concrete store
with one workout and an explicit completion flag. -/
theorem export_import_roundtrip_witness :
    importAll c5ctx (exportAll c5ctx c5wStore) (clearAll c5wStore)
      = (migrate c5ctx c5wStore).1 :=
  export_import_roundtrip c5ctx c5wStore true (by decide) (by decide) (by decide)

end HealthTracker
